import Mathlib

/-!
# Verification of `validator.go`

A shallow embedding of the struct-tag validator (`Validate` and its predicate
checks) together with the library behaviour the code relies on
(`strings.Split`, `strings.TrimSpace`, `strings.ReplaceAll`, `strconv.Atoi`,
`regexp.MatchString`, `fmt` verbs).

Modelling conventions.

* A Go `string` is a Lean `String`, so every string is valid UTF-8; `len(s)` is
  the number of bytes of that encoding (`String.utf8ByteSize`).
* A Go `error` is an `Option String`: `none` is `nil`, `some m` an error whose
  `Error()` text is `m`.
* Go `int` is 64 bits wide.  No arithmetic is done on field values, only
  comparisons, so they are kept as `Int`; the width shows in `strconv.Atoi`,
  which rejects out-of-range literals.
* `log.Fatalf` (print and `os.Exit(1)`) is the outcome `Outcome.fatal`; a run-time
  panic is the outcome `Outcome.panic`.
* A field is read through `reflect` in two ways.  `fieldData.Interface()` panics on a
  field that is not exported and otherwise gives the value held, a field declared with
  an interface type giving the value inside the interface.  `fieldData.String()` never
  panics: it gives the string of a field of kind string and a placeholder naming the
  declared type otherwise.
-/

namespace Validator

/-! ## Library: package `strings` -/

namespace strings

/-- The characters for which Go's `unicode.IsSpace` answers true. -/
def isSpace (c : Char) : Bool :=
  let n := c.toNat
  n == 0x20 || (0x09 ≤ n && n ≤ 0x0D) || n == 0x85 || n == 0xA0 || n == 0x1680 ||
    (0x2000 ≤ n && n ≤ 0x200A) || n == 0x2028 || n == 0x2029 || n == 0x202F ||
    n == 0x205F || n == 0x3000

/-- Characters left after cutting the leading and the trailing run of white space. -/
def trimSpaceChars (cs : List Char) : List Char :=
  ((cs.dropWhile isSpace).reverse.dropWhile isSpace).reverse

/-- Go's `strings.TrimSpace`. -/
def TrimSpace (s : String) : String :=
  String.mk (trimSpaceChars s.data)

/-- Pieces of `cs` between the occurrences of `sep`; never the empty list. -/
def splitChars (sep : Char) : List Char → List (List Char)
  | [] => [[]]
  | c :: cs =>
    if c = sep then [] :: splitChars sep cs
    else
      match splitChars sep cs with
      | [] => [[c]]
      | piece :: pieces => (c :: piece) :: pieces

/-- Go's `strings.Split(s, sep)` for a separator of one character. -/
def Split (s : String) (sep : Char) : List String :=
  (splitChars sep s.data).map String.mk

/-- Go's `strings.ReplaceAll(s, old, new)` for an `old` of one character. -/
def ReplaceAll (s : String) (old : Char) (new : String) : String :=
  String.mk (s.data.flatMap fun c => if c = old then new.data else [c])

end strings

/-! ## Library: package `strconv` and the `%v` verb on an `int` -/

namespace strconv

/-- Value of a run of decimal digits, most significant first. -/
def digitsValue (ds : List Char) : Nat :=
  ds.foldl (fun acc c => acc * 10 + (c.toNat - 48)) 0

/-- Tests for an ASCII decimal digit. -/
def isDigit (c : Char) : Bool :=
  decide (48 ≤ c.toNat) && decide (c.toNat ≤ 57)

/-- The digits of `strconv.Atoi` once the sign is read: one or more decimal digits whose
value, negated under a minus sign, must fit a 64-bit `int`. -/
def atoiDigits (neg : Bool) (ds : List Char) : Option Int :=
  if ds.isEmpty || !ds.all isDigit then none
  else
    let v : Int := if neg then -(digitsValue ds : Int) else (digitsValue ds : Int)
    if -(2 : Int) ^ 63 ≤ v ∧ v < (2 : Int) ^ 63 then some v else none

/-- Go's `strconv.Atoi` on a 64-bit platform: an optional sign, then the digits;
`none` is a non-nil error. -/
def Atoi (s : String) : Option Int :=
  match s.data with
  | '-' :: rest => atoiDigits true rest
  | '+' :: rest => atoiDigits false rest
  | cs => atoiDigits false cs

end strconv

/-- What `%v` prints for an `int`: decimal digits, with a leading minus sign when negative. -/
def formatInt : Int → String
  | Int.ofNat n => Nat.repr n
  | Int.negSucc n => "-" ++ Nat.repr (n + 1)

/-! ## Library: package `regexp` -/

namespace regexp

/-- A bracket expression: the list of its inclusive ranges. -/
abbrev Class := List (Char × Char)

/-- Membership of a character in a bracket expression. -/
def Class.mem (cl : Class) (c : Char) : Bool :=
  cl.any fun r => decide (r.1.toNat ≤ c.toNat) && decide (c.toNat ≤ r.2.toNat)

/-- The Perl class written `\w`: ASCII digits, letters and the underscore. -/
def perlW : Class := [('0', '9'), ('A', 'Z'), ('_', '_'), ('a', 'z')]

/-- Regular expressions without anchors. -/
inductive Regex where
  | empty : Regex
  | eps : Regex
  | cls (cl : Class) : Regex
  | seq (a b : Regex) : Regex
  | alt (a b : Regex) : Regex
  | star (a : Regex) : Regex

namespace Regex

/-- The expression `a+`. -/
def plus (a : Regex) : Regex := seq a (star a)

/-- The expression `a{n,m}`, unfolded the way RE2 does: `n` copies, then nested options. -/
def rep (a : Regex) : Nat → Nat → Regex
  | 0, 0 => eps
  | 0, m + 1 => alt eps (seq a (rep a 0 m))
  | _ + 1, 0 => empty
  | n + 1, m + 1 => seq a (rep a n m)

/-- Does the expression accept the empty string? -/
def nullable : Regex → Bool
  | empty => false
  | eps => true
  | cls _ => false
  | seq a b => nullable a && nullable b
  | alt a b => nullable a || nullable b
  | star _ => true

/-- Brzozowski derivative: what remains to be matched after reading `c`. -/
def deriv : Regex → Char → Regex
  | empty, _ => empty
  | eps, _ => empty
  | cls cl, c => if cl.mem c then eps else empty
  | seq a b, c =>
    if nullable a then alt (seq (deriv a c) b) (deriv b c) else seq (deriv a c) b
  | alt a b, c => alt (deriv a c) (deriv b c)
  | star a, c => seq (deriv a c) (star a)

/-- Does the expression match the whole of `cs`? -/
def fullMatch (r : Regex) : List Char → Bool
  | [] => nullable r
  | c :: cs => fullMatch (deriv r c) cs

end Regex

/-- A compiled pattern: `bot` records a leading `^`, `eot` a trailing `$` (no
multi-line flag, so they stand for begin and end of text). -/
structure Regexp where
  bot : Bool
  body : Regex
  eot : Bool

/-- Go's `(*Regexp).MatchString`: does `s` contain a match of the pattern? -/
def Regexp.MatchString (re : Regexp) (s : String) : Bool :=
  match re.bot, re.eot with
  | true, true => re.body.fullMatch s.data
  | true, false => s.data.inits.any re.body.fullMatch
  | false, true => s.data.tails.any re.body.fullMatch
  | false, false => s.data.tails.any fun t => t.inits.any re.body.fullMatch

end regexp

/-! ## Data model -/

/-- A value as the type switches of the checks see it.  `int` and `str` are the two
dynamic types the switches name; `other` is a value of any other dynamic type and
carries what `reflect.Value.String()` returns for a value of that type. -/
inductive Value where
  | int (v : Int) : Value
  | str (s : String) : Value
  | other (text : String) : Value
  deriving DecidableEq

/-- Go's `reflect.Value.String()` on a value of concrete type: the string itself for a
string, a placeholder otherwise. -/
def Value.String : Value → String
  | Value.str s => s
  | Value.int _ => "<int Value>"
  | Value.other text => text

/-- One struct field as `reflect` presents it: its name, the result of
`Tag.Lookup("validator")`, the value it holds (for a field declared with an interface
type, the value inside the interface), whether it is exported (the compiler sets this
from the first letter of the name), and, for a field declared with an interface type,
the printed name of that type. -/
structure Field where
  name : String
  tag : Option String
  value : Value
  exported : Bool
  iface : Option String
  deriving DecidableEq

/-- The text of the panic of `reflect.Value.Interface` on a field that is not exported. -/
def reflectPanic : String :=
  "reflect.Value.Interface: cannot return value obtained from unexported field or method"

/-- `fieldData.Interface()`: the value held, or the panic on a field that is not
exported. -/
def Field.Interface (field : Field) : Except String Value :=
  if field.exported then Except.ok field.value else Except.error reflectPanic

/-- `fieldData.String()`: for a field declared with an interface type the placeholder
naming that type, otherwise `reflect.Value.String()` of the value. -/
def Field.String (field : Field) : String :=
  match field.iface with
  | some typeText => "<" ++ typeText ++ " Value>"
  | none => field.value.String

/-- The struct value given to `Validate`: the printed name of its type and its fields in
declaration order. -/
structure Record where
  typeName : String
  fields : List Field
  deriving DecidableEq

/-- Result of a call: `nil`, a returned error, the process ended by `log.Fatalf`, or a
run-time panic. -/
inductive Outcome where
  | ok : Outcome
  | error (msg : String) : Outcome
  | fatal (msg : String) : Outcome
  | panic (msg : String) : Outcome
  deriving DecidableEq

/-! ## The program -/

/-- `trimWhiteSpaces`: remove every space, tab, vertical tab and newline. -/
def trimWhiteSpaces (s : String) : String :=
  [' ', '\t', Char.ofNat 11, '\n'].foldl (fun acc w => strings.ReplaceAll acc w "") s

/-- `parseInt`: the parsed integer, or the error text naming the argument. -/
def parseInt (intStr : String) : Except String Int :=
  match strconv.Atoi intStr with
  | some n => Except.ok n
  | none => Except.error (intStr ++ " is not integer")

/-- `checkRequired`. -/
def checkRequired (data : Value) : Option String :=
  match data with
  | Value.int v => if v = 0 then some "is required" else none
  | Value.str v => if (strings.TrimSpace v).utf8ByteSize = 0 then some "is required" else none
  | Value.other _ => none

/-- The pattern written `[0-9]{1}`. -/
def numRegex : regexp.Regexp :=
  ⟨false, regexp.Regex.rep (regexp.Regex.cls [('0', '9')]) 1 1, false⟩

/-- The pattern written `[a-z]{1}`. -/
def lowercaseRegex : regexp.Regexp :=
  ⟨false, regexp.Regex.rep (regexp.Regex.cls [('a', 'z')]) 1 1, false⟩

/-- The pattern written `[A-Z]{1}`. -/
def uppercaseRegex : regexp.Regexp :=
  ⟨false, regexp.Regex.rep (regexp.Regex.cls [('A', 'Z')]) 1 1, false⟩

/-- The bracket expression `[!@#~$%^&*()+|_]`. -/
def symbolClass : regexp.Class :=
  [('!', '!'), ('@', '@'), ('#', '#'), ('~', '~'), ('$', '$'), ('%', '%'), ('^', '^'),
   ('&', '&'), ('*', '*'), ('(', '('), (')', ')'), ('+', '+'), ('|', '|'), ('_', '_')]

/-- The pattern written `[!@#~$%^&*()+|_]{1}`. -/
def symbolRegex : regexp.Regexp :=
  ⟨false, regexp.Regex.rep (regexp.Regex.cls symbolClass) 1 1, false⟩

/-- `checkPassword`. -/
def checkPassword (pass : String) : Option String :=
  if !numRegex.MatchString pass then
    some "must contain at least one number"
  else if !lowercaseRegex.MatchString pass then
    some "must contain at least one lowercase letter"
  else if !uppercaseRegex.MatchString pass then
    some "must contain at least one uppercase letter"
  else if !symbolRegex.MatchString pass then
    some "must contain at least one symbol\n(!, @, #, ~, $, %, ^, &, *, (, ), +, |, _, )"
  else none

/-- The bracket expression the source writes `[\w-\.]`: `\w`, then a literal hyphen
(it follows a class, so it opens no range), then an escaped dot. -/
def emailLocalClass : regexp.Class := regexp.perlW ++ [('-', '-'), ('.', '.')]

/-- The bracket expression `[\w-]`. -/
def emailLabelClass : regexp.Class := regexp.perlW ++ [('-', '-')]

/-- The pattern written `^[\w-\.]+@([\w-]+\.)+[\w-]{2,24}$`. -/
def emailRegex : regexp.Regexp :=
  ⟨true,
   regexp.Regex.seq (regexp.Regex.plus (regexp.Regex.cls emailLocalClass))
     (regexp.Regex.seq (regexp.Regex.cls [('@', '@')])
       (regexp.Regex.seq
         (regexp.Regex.plus
           (regexp.Regex.seq (regexp.Regex.plus (regexp.Regex.cls emailLabelClass))
             (regexp.Regex.cls [('.', '.')])))
         (regexp.Regex.rep (regexp.Regex.cls emailLabelClass) 2 24))),
   true⟩

/-- `checkEmail`. -/
def checkEmail (email : String) : Option String :=
  if !emailRegex.MatchString email then some "e-mail is invalid" else none

/-- The bracket expression `[a-zA-Z0-9._-]`. -/
def usernameClass : regexp.Class :=
  [('a', 'z'), ('A', 'Z'), ('0', '9'), ('.', '.'), ('_', '_'), ('-', '-')]

/-- The pattern written `^[a-zA-Z0-9._-]+$`. -/
def usernameRegex : regexp.Regexp :=
  ⟨true, regexp.Regex.plus (regexp.Regex.cls usernameClass), true⟩

/-- `checkUsername`. -/
def checkUsername (username : String) : Option String :=
  if !usernameRegex.MatchString username then some "username is invalid" else none

/-- `checkMin`. -/
def checkMin (data : Value) (minStr : String) : Option String :=
  match parseInt minStr with
  | Except.error err => some err
  | Except.ok min =>
    match data with
    | Value.int v =>
      if v < min then
        some ("value (" ++ formatInt v ++ ") is lower than minimum value (" ++ formatInt min ++ ")")
      else none
    | Value.str v =>
      let l : Int := v.utf8ByteSize
      if l < min then
        some ("length (" ++ formatInt l ++ ") is lower than minimum length (" ++
          formatInt min ++ ")")
      else none
    | Value.other _ => none

/-- `checkMax`. -/
def checkMax (data : Value) (maxStr : String) : Option String :=
  match parseInt maxStr with
  | Except.error err => some err
  | Except.ok max =>
    match data with
    | Value.int v =>
      if v > max then
        some ("value (" ++ formatInt v ++ ") is higher than maximum value (" ++
          formatInt max ++ ")")
      else none
    | Value.str v =>
      let l : Int := v.utf8ByteSize
      if l > max then
        some ("length (" ++ formatInt l ++ ") length is higher than maximim length (" ++
          formatInt max ++ ")")
      else none
    | Value.other _ => none

/-- A check called on `fieldData.Interface()`: the accessor runs first and may panic;
otherwise an error of the check is returned with the field name in front. -/
def onInterface (field : Field) (check : Value → Option String) : Option Outcome :=
  match field.Interface with
  | Except.error p => some (Outcome.panic p)
  | Except.ok data => (check data).map fun err => Outcome.error (field.name ++ " " ++ err)

/-- Body of the inner loop of `Validate` for one token of the annotation: `none` when
the loop goes on to the next token, `some o` when the call ends with `o`. -/
def applyFlag (t : String) (field : Field) (flag : String) : Option Outcome :=
  match strings.Split flag '=' with
  | [key] =>
    if key = "required" then
      onInterface field checkRequired
    else if key = "password" then
      (checkPassword field.String).map fun err => Outcome.error (field.name ++ " " ++ err)
    else if key = "email" then
      (checkEmail field.String).map fun err => Outcome.error err
    else if key = "username" then
      (checkUsername field.String).map fun err => Outcome.error err
    else some (Outcome.fatal ("'" ++ key ++ "' invalid key at " ++ t))
  | [key, value] =>
    if key = "min" then
      onInterface field fun data => checkMin data value
    else if key = "max" then
      onInterface field fun data => checkMax data value
    else some (Outcome.error (key ++ " invalid key"))
  | _ => some (Outcome.fatal ("'" ++ flag ++ "' invalid format at " ++ t))

/-- The inner loop of `Validate`: the tokens of one field, left to right. -/
def validateFlags (t : String) (field : Field) : List String → Option Outcome
  | [] => none
  | flag :: rest =>
    match applyFlag t field flag with
    | some o => some o
    | none => validateFlags t field rest

/-- The token list the inner loop ranges over for an annotation. -/
def flagsArray (flags : String) : List String :=
  strings.Split (trimWhiteSpaces flags) ','

/-- The outer loop of `Validate`: the fields in declaration order. -/
def validateFields (t : String) : List Field → Outcome
  | [] => Outcome.ok
  | field :: rest =>
    match field.tag with
    | none => validateFields t rest
    | some flags =>
      match validateFlags t field (flagsArray flags) with
      | some o => o
      | none => validateFields t rest

/-- `Validate`. -/
def Validate (data : Record) : Outcome :=
  validateFields data.typeName data.fields

/-! ## What a pattern denotes -/

namespace regexp
namespace Regex

/-- The words an expression denotes. -/
inductive Matches : Regex → List Char → Prop
  | eps : Matches eps []
  | cls {cl : Class} {c : Char} : cl.mem c = true → Matches (cls cl) [c]
  | seq {a b : Regex} {x y : List Char} : Matches a x → Matches b y → Matches (seq a b) (x ++ y)
  | altL {a b : Regex} {x : List Char} : Matches a x → Matches (alt a b) x
  | altR {a b : Regex} {x : List Char} : Matches b x → Matches (alt a b) x
  | starNil {a : Regex} : Matches (star a) []
  | starCons {a : Regex} {x y : List Char} :
      Matches a x → Matches (star a) y → Matches (star a) (x ++ y)

end Regex
end regexp

/-! ## Vocabulary of the specification -/

/-- An ASCII decimal digit, `0` to `9`. -/
def IsDigit (c : Char) : Prop := '0' ≤ c ∧ c ≤ '9'

/-- An ASCII lowercase letter, `a` to `z`. -/
def IsLower (c : Char) : Prop := 'a' ≤ c ∧ c ≤ 'z'

/-- An ASCII uppercase letter, `A` to `Z`. -/
def IsUpper (c : Char) : Prop := 'A' ≤ c ∧ c ≤ 'Z'

/-- The symbols a password may draw on. -/
def passwordSymbols : List Char :=
  ['!', '@', '#', '~', '$', '%', '^', '&', '*', '(', ')', '+', '|', '_']

/-- A word character: ASCII letter, ASCII digit or underscore. -/
def IsWord (c : Char) : Prop := IsDigit c ∨ IsLower c ∨ IsUpper c ∨ c = '_'

instance (c : Char) : Decidable (IsDigit c) := by unfold IsDigit; infer_instance
instance (c : Char) : Decidable (IsLower c) := by unfold IsLower; infer_instance
instance (c : Char) : Decidable (IsUpper c) := by unfold IsUpper; infer_instance
instance (c : Char) : Decidable (IsWord c) := by unfold IsWord; infer_instance

/-- The bracket expression the specification writes `[\w.-]`. -/
def specEmailLocalClass : regexp.Class := regexp.perlW ++ [('.', '.'), ('-', '-')]

/-- The pattern of the specification, `^[\w.-]+@([\w-]+\.)+[\w-]{2,24}$`. -/
def specEmailRegex : regexp.Regexp :=
  ⟨true,
   regexp.Regex.seq (regexp.Regex.plus (regexp.Regex.cls specEmailLocalClass))
     (regexp.Regex.seq (regexp.Regex.cls [('@', '@')])
       (regexp.Regex.seq
         (regexp.Regex.plus
           (regexp.Regex.seq (regexp.Regex.plus (regexp.Regex.cls emailLabelClass))
             (regexp.Regex.cls [('.', '.')])))
         (regexp.Regex.rep (regexp.Regex.cls emailLabelClass) 2 24))),
   true⟩

/-- The shape of an address in words: a non-empty local part of word characters, dots
and hyphens; `@`; one or more non-empty labels of word characters and hyphens, each
followed by a dot; a last segment of 2 to 24 word characters and hyphens. -/
def EmailShape (cs : List Char) : Prop :=
  ∃ (loc : List Char) (labels : List (List Char)) (tld : List Char),
    cs = loc ++ '@' :: ((labels.map fun l => l ++ ['.']).flatten ++ tld) ∧
    loc ≠ [] ∧ (∀ c ∈ loc, IsWord c ∨ c = '.' ∨ c = '-') ∧
    labels ≠ [] ∧ (∀ l ∈ labels, l ≠ [] ∧ ∀ c ∈ l, IsWord c ∨ c = '-') ∧
    2 ≤ tld.length ∧ tld.length ≤ 24 ∧ ∀ c ∈ tld, IsWord c ∨ c = '-'

/-- A decimal integer literal: an optional sign, then one or more decimal digits. -/
def IsDecimalInteger (arg : String) : Prop :=
  ∃ ds : List Char, ds ≠ [] ∧ (∀ c ∈ ds, IsDigit c) ∧
    (arg.data = ds ∨ arg.data = '-' :: ds ∨ arg.data = '+' :: ds)

/-- The loops of `Validate` get to token `tok` of field `f`: the field is annotated,
the token is one of its tokens, and every token of the fields before it and every
token before it in its own annotation lets the loops go on. -/
def Reaches (data : Record) (f : Field) (tok : String) : Prop :=
  ∃ (before after : List Field) (flags : String) (done todo : List String),
    data.fields = before ++ f :: after ∧ f.tag = some flags ∧
    flagsArray flags = done ++ tok :: todo ∧
    (∀ g ∈ before, ∀ gflags, g.tag = some gflags →
      ∀ u ∈ flagsArray gflags, applyFlag data.typeName g u = none) ∧
    (∀ u ∈ done, applyFlag data.typeName f u = none)

/-- The switch of `Validate` on the name of a token without `=`. -/
def dispatchFlag (t : String) (field : Field) (key : String) : Option Outcome :=
  if key = "required" then
    onInterface field checkRequired
  else if key = "password" then
    (checkPassword field.String).map fun err => Outcome.error (field.name ++ " " ++ err)
  else if key = "email" then
    (checkEmail field.String).map fun err => Outcome.error err
  else if key = "username" then
    (checkUsername field.String).map fun err => Outcome.error err
  else some (Outcome.fatal ("'" ++ key ++ "' invalid key at " ++ t))

/-- The switch of `Validate` on the name of a token `key=value`. -/
def dispatchParam (field : Field) (key value : String) : Option Outcome :=
  if key = "min" then
    onInterface field fun data => checkMin data value
  else if key = "max" then
    onInterface field fun data => checkMax data value
  else some (Outcome.error (key ++ " invalid key"))

/-- The four characters `trimWhiteSpaces` removes: space, tab, vertical tab, newline. -/
def strippedChars : List Char := [' ', '\t', Char.ofNat 11, '\n']

/-- Two records of the same shape: same type name, same field names and annotations,
whatever the values. -/
def SameShape (d1 d2 : Record) : Prop :=
  d1.typeName = d2.typeName ∧
    d1.fields.map (fun f => (f.name, f.tag)) = d2.fields.map (fun f => (f.name, f.tag))

/-- A token that makes the dispatch abort: more than one `=`, or no `=` and a name
that is none of the four flag names. -/
def FatalToken (tok : String) : Prop :=
  2 ≤ tok.data.count '=' ∨
    ('=' ∉ tok.data ∧ tok ≠ "required" ∧ tok ≠ "password" ∧ tok ≠ "email" ∧
      tok ≠ "username")

/-- The outcome with the text of an abort left out: the type name shows only there. -/
def Outcome.kind : Outcome → Outcome
  | Outcome.fatal _ => Outcome.fatal ""
  | o => o

/-! ## Sample records -/

/-- The record `{Age: 0}` with `required` on `Age`. -/
def sampleAge : Record :=
  ⟨"main.Person", [⟨"Age", some "required", Value.int 0, true, none⟩]⟩

/-- A record with two annotated fields and one without annotation: `Name: "ab"` under
`required, min=3`, `Note` without annotation, `Count: 5` under `min=1,max=10`. -/
def sampleItem : Record :=
  ⟨"main.Item",
   [⟨"Name", some "required, min=3", Value.str "ab", true, none⟩,
    ⟨"Note", none, Value.other "<bool Value>", true, none⟩,
    ⟨"Count", some "min=1,max=10", Value.int 5, true, none⟩]⟩

/-- The record `{Age: v}` with `required,bogus` on `Age`: a known rule, then an unknown
flag name. -/
def sampleBogus (v : Int) : Record :=
  ⟨"main.Person", [⟨"Age", some "required,bogus", Value.int v, true, none⟩]⟩

/-- The record `{Name: "ab"}` with `min=3` on `Name`. -/
def sampleName : Record :=
  ⟨"main.Item", [⟨"Name", some "min=3", Value.str "ab", true, none⟩]⟩

/-! # Lemmas -/

/-! ## Derivatives and the words of an expression -/

namespace regexp
namespace Regex

theorem matches_nil_nullable {r : Regex} {w : List Char} (h : Matches r w) :
    w = [] → nullable r = true := by
  induction h with
  | eps => intro _; rfl
  | cls _ => intro hw; simp at hw
  | seq _ _ iha ihb =>
    intro hw
    rw [List.append_eq_nil] at hw
    simp [nullable, iha hw.1, ihb hw.2]
  | altL _ ih => intro hw; simp [nullable, ih hw]
  | altR _ ih => intro hw; simp [nullable, ih hw]
  | starNil => intro _; rfl
  | starCons _ _ _ _ => intro _; rfl

theorem nullable_matches_nil : ∀ {r : Regex}, nullable r = true → Matches r []
  | empty, h => by simp [nullable] at h
  | eps, _ => Matches.eps
  | cls _, h => by simp [nullable] at h
  | seq a b, h => by
    simp only [nullable, Bool.and_eq_true] at h
    exact Matches.seq (x := []) (y := []) (nullable_matches_nil h.1) (nullable_matches_nil h.2)
  | alt a b, h => by
    simp only [nullable, Bool.or_eq_true] at h
    rcases h with h | h
    · exact Matches.altL (nullable_matches_nil h)
    · exact Matches.altR (nullable_matches_nil h)
  | star _, _ => Matches.starNil

theorem nullable_iff (r : Regex) : nullable r = true ↔ Matches r [] :=
  ⟨nullable_matches_nil, fun h => matches_nil_nullable h rfl⟩

theorem matches_of_deriv : ∀ {r : Regex} {c : Char} {x : List Char},
    Matches (deriv r c) x → Matches r (c :: x)
  | empty, c, x, h => by cases h
  | eps, c, x, h => by cases h
  | cls cl, c, x, h => by
    by_cases hm : cl.mem c = true
    · simp only [deriv, hm, if_true] at h
      cases h
      exact Matches.cls hm
    · simp only [deriv, hm] at h
      cases h
  | seq a b, c, x, h => by
    by_cases hn : nullable a = true
    · simp only [deriv, hn, if_true] at h
      cases h with
      | altL h1 =>
        cases h1 with
        | seq hu hv => exact Matches.seq (matches_of_deriv hu) hv
      | altR h2 =>
        exact Matches.seq (x := []) (nullable_matches_nil hn) (matches_of_deriv h2)
    · simp only [deriv, hn] at h
      cases h with
      | seq hu hv => exact Matches.seq (matches_of_deriv hu) hv
  | alt a b, c, x, h => by
    simp only [deriv] at h
    cases h with
    | altL h1 => exact Matches.altL (matches_of_deriv h1)
    | altR h2 => exact Matches.altR (matches_of_deriv h2)
  | star a, c, x, h => by
    simp only [deriv] at h
    cases h with
    | seq hu hv => exact Matches.starCons (matches_of_deriv hu) hv

theorem deriv_of_matches {r : Regex} {w : List Char} (h : Matches r w) :
    ∀ (c : Char) (x : List Char), w = c :: x → Matches (deriv r c) x := by
  induction h with
  | eps => intro c x hw; simp at hw
  | @cls cl d hm =>
    intro c x hw
    simp only [List.cons.injEq] at hw
    obtain ⟨rfl, rfl⟩ := hw
    simp only [deriv, hm, if_true]
    exact Matches.eps
  | @seq a b u v hu hv iha ihb =>
    intro c x hw
    cases u with
    | nil =>
      have hn := matches_nil_nullable hu rfl
      simp only [deriv, hn, if_true]
      exact Matches.altR (ihb c x (by simpa using hw))
    | cons d u' =>
      simp only [List.cons_append, List.cons.injEq] at hw
      obtain ⟨rfl, rfl⟩ := hw
      have h1 := Matches.seq (iha d u' rfl) hv
      by_cases hn : nullable a = true
      · simp only [deriv, hn, if_true]
        exact Matches.altL h1
      · simp only [deriv, hn]
        exact h1
  | altL _ ih => intro c x hw; exact Matches.altL (ih c x hw)
  | altR _ ih => intro c x hw; exact Matches.altR (ih c x hw)
  | starNil => intro c x hw; simp at hw
  | @starCons a u v hu hv iha ihs =>
    intro c x hw
    cases u with
    | nil => exact ihs c x (by simpa using hw)
    | cons d u' =>
      simp only [List.cons_append, List.cons.injEq] at hw
      obtain ⟨rfl, rfl⟩ := hw
      simp only [deriv]
      exact Matches.seq (iha d u' rfl) hv

theorem fullMatch_iff : ∀ (x : List Char) (r : Regex), fullMatch r x = true ↔ Matches r x
  | [], r => nullable_iff r
  | c :: x, r => by
    simp only [fullMatch]
    rw [fullMatch_iff x (deriv r c)]
    exact ⟨matches_of_deriv, fun h => deriv_of_matches h c x rfl⟩

theorem matches_eps_iff (x : List Char) : Matches eps x ↔ x = [] :=
  ⟨fun h => by cases h; rfl, fun h => h ▸ Matches.eps⟩

theorem matches_cls_iff (cl : Class) (x : List Char) :
    Matches (cls cl) x ↔ ∃ c, x = [c] ∧ cl.mem c = true :=
  ⟨fun h => by cases h with | cls hm => exact ⟨_, rfl, hm⟩,
   fun ⟨_, hx, hm⟩ => hx ▸ Matches.cls hm⟩

theorem matches_seq_iff (a b : Regex) (x : List Char) :
    Matches (seq a b) x ↔ ∃ u v, x = u ++ v ∧ Matches a u ∧ Matches b v :=
  ⟨fun h => by cases h with | seq hu hv => exact ⟨_, _, rfl, hu, hv⟩,
   fun ⟨_, _, hx, hu, hv⟩ => hx ▸ Matches.seq hu hv⟩

theorem matches_alt_iff (a b : Regex) (x : List Char) :
    Matches (alt a b) x ↔ Matches a x ∨ Matches b x :=
  ⟨fun h => by
    cases h with
    | altL h1 => exact Or.inl h1
    | altR h2 => exact Or.inr h2,
   fun h => h.elim Matches.altL Matches.altR⟩

theorem matches_star_flatten {a : Regex} :
    ∀ (L : List (List Char)), (∀ y ∈ L, Matches a y) → Matches (star a) L.flatten
  | [], _ => Matches.starNil
  | y :: L, h => by
    rw [List.flatten_cons]
    exact Matches.starCons (h y (List.mem_cons_self _ _))
      (matches_star_flatten L fun z hz => h z (List.mem_cons_of_mem _ hz))

theorem star_pieces {r : Regex} {w : List Char} (h : Matches r w) :
    ∀ a : Regex, r = star a → ∃ L : List (List Char), w = L.flatten ∧ ∀ y ∈ L, Matches a y := by
  induction h with
  | eps => intro a hr; cases hr
  | cls _ => intro a hr; cases hr
  | seq _ _ _ _ => intro a hr; cases hr
  | altL _ _ => intro a hr; cases hr
  | altR _ _ => intro a hr; cases hr
  | starNil => intro a _; exact ⟨[], rfl, fun _ hy => by cases hy⟩
  | @starCons a0 u v hu _ _ ihs =>
    intro a hr
    cases hr
    obtain ⟨L, hL, hall⟩ := ihs a0 rfl
    refine ⟨u :: L, by rw [List.flatten_cons, hL], ?_⟩
    intro y hy
    rcases List.mem_cons.1 hy with rfl | hy
    · exact hu
    · exact hall y hy

theorem matches_star_iff (a : Regex) (x : List Char) :
    Matches (star a) x ↔ ∃ L : List (List Char), x = L.flatten ∧ ∀ y ∈ L, Matches a y :=
  ⟨fun h => star_pieces h a rfl, fun ⟨L, hx, hall⟩ => hx ▸ matches_star_flatten L hall⟩

theorem matches_star_cls_iff (cl : Class) (x : List Char) :
    Matches (star (cls cl)) x ↔ ∀ c ∈ x, cl.mem c = true := by
  rw [matches_star_iff]
  constructor
  · rintro ⟨L, rfl, hall⟩ c hc
    obtain ⟨y, hy, hcy⟩ := List.mem_flatten.1 hc
    obtain ⟨d, rfl, hd⟩ := (matches_cls_iff cl y).1 (hall y hy)
    rw [List.mem_singleton] at hcy
    exact hcy ▸ hd
  · intro h
    refine ⟨x.map fun c => [c], ?_, ?_⟩
    · clear h
      induction x with
      | nil => rfl
      | cons c x ih => simp [List.flatten_cons, ← ih]
    · intro y hy
      obtain ⟨c, hc, rfl⟩ := List.mem_map.1 hy
      exact Matches.cls (h c hc)

theorem matches_plus_cls_iff (cl : Class) (x : List Char) :
    Matches (plus (cls cl)) x ↔ x ≠ [] ∧ ∀ c ∈ x, cl.mem c = true := by
  unfold plus
  rw [matches_seq_iff]
  constructor
  · rintro ⟨u, v, rfl, hu, hv⟩
    obtain ⟨c, rfl, hc⟩ := (matches_cls_iff cl u).1 hu
    refine ⟨by simp, ?_⟩
    intro d hd
    rcases List.mem_append.1 hd with hd | hd
    · rw [List.mem_singleton] at hd
      exact hd ▸ hc
    · exact (matches_star_cls_iff cl v).1 hv d hd
  · rintro ⟨hne, hall⟩
    cases x with
    | nil => exact absurd rfl hne
    | cons c x =>
      exact ⟨[c], x, rfl, Matches.cls (hall c (List.mem_cons_self _ _)),
        (matches_star_cls_iff cl x).2 fun d hd => hall d (List.mem_cons_of_mem _ hd)⟩

theorem matches_rep_cls_iff (cl : Class) :
    ∀ (n m : Nat) (x : List Char), n ≤ m →
      (Matches (rep (cls cl) n m) x ↔
        n ≤ x.length ∧ x.length ≤ m ∧ ∀ c ∈ x, cl.mem c = true)
  | 0, 0, x, _ => by
    simp only [rep, matches_eps_iff]
    constructor
    · rintro rfl; simp
    · rintro ⟨_, h, _⟩
      exact List.length_eq_zero.1 (Nat.le_zero.1 h)
  | 0, m + 1, x, _ => by
    simp only [rep, matches_alt_iff, matches_eps_iff, matches_seq_iff, matches_cls_iff]
    constructor
    · rintro (rfl | ⟨u, v, rfl, ⟨c, rfl, hc⟩, hv⟩)
      · simp
      · obtain ⟨_, h2, h3⟩ := (matches_rep_cls_iff cl 0 m v (Nat.zero_le _)).1 hv
        refine ⟨Nat.zero_le _, by simpa using h2, ?_⟩
        intro d hd
        rcases List.mem_append.1 hd with hd | hd
        · rw [List.mem_singleton] at hd
          exact hd ▸ hc
        · exact h3 d hd
    · rintro ⟨_, h2, h3⟩
      cases x with
      | nil => exact Or.inl rfl
      | cons c x =>
        refine Or.inr ⟨[c], x, rfl, ⟨c, rfl, h3 c (List.mem_cons_self _ _)⟩, ?_⟩
        exact (matches_rep_cls_iff cl 0 m x (Nat.zero_le _)).2
          ⟨Nat.zero_le _, by simpa using h2, fun d hd => h3 d (List.mem_cons_of_mem _ hd)⟩
  | n + 1, 0, x, h => absurd h (by omega)
  | n + 1, m + 1, x, h => by
    simp only [rep, matches_seq_iff, matches_cls_iff]
    constructor
    · rintro ⟨u, v, rfl, ⟨c, rfl, hc⟩, hv⟩
      obtain ⟨h1, h2, h3⟩ := (matches_rep_cls_iff cl n m v (by omega)).1 hv
      refine ⟨by simpa using h1, by simpa using h2, ?_⟩
      intro d hd
      rcases List.mem_append.1 hd with hd | hd
      · rw [List.mem_singleton] at hd
        exact hd ▸ hc
      · exact h3 d hd
    · rintro ⟨h1, h2, h3⟩
      cases x with
      | nil => simp at h1
      | cons c x =>
        refine ⟨[c], x, rfl, ⟨c, rfl, h3 c (List.mem_cons_self _ _)⟩, ?_⟩
        exact (matches_rep_cls_iff cl n m x (by omega)).2
          ⟨by simpa using h1, by simpa using h2, fun d hd => h3 d (List.mem_cons_of_mem _ hd)⟩

end Regex

/-- `MatchString` finds a piece of the text in the language of the body, starting at
the beginning under `^` and reaching the end under `$`. -/
theorem Regexp.MatchString_iff (re : Regexp) (s : String) :
    re.MatchString s = true ↔
      ∃ pre mid post : List Char, s.data = pre ++ mid ++ post ∧
        (re.bot = true → pre = []) ∧ (re.eot = true → post = []) ∧ re.body.Matches mid := by
  obtain ⟨bot, body, eot⟩ := re
  cases bot <;> cases eot <;>
    simp only [Regexp.MatchString, List.any_eq_true, List.mem_tails, List.mem_inits,
      Regex.fullMatch_iff]
  · constructor
    · rintro ⟨t, ⟨pre, hpre⟩, mid, ⟨post, hpost⟩, hm⟩
      exact ⟨pre, mid, post, by rw [← hpre, ← hpost, List.append_assoc], by simp, by simp, hm⟩
    · rintro ⟨pre, mid, post, hs, -, -, hm⟩
      exact ⟨mid ++ post, ⟨pre, by rw [hs, List.append_assoc]⟩, mid, ⟨post, rfl⟩, hm⟩
  · constructor
    · rintro ⟨t, ⟨pre, hpre⟩, hm⟩
      exact ⟨pre, t, [], by simp [hpre], by simp, by simp, hm⟩
    · rintro ⟨pre, mid, post, hs, -, hpost, hm⟩
      obtain rfl := hpost trivial
      exact ⟨mid, ⟨pre, by simp [hs]⟩, hm⟩
  · constructor
    · rintro ⟨mid, ⟨post, hpost⟩, hm⟩
      exact ⟨[], mid, post, by simp [hpost], by simp, by simp, hm⟩
    · rintro ⟨pre, mid, post, hs, hpre, -, hm⟩
      obtain rfl := hpre trivial
      exact ⟨mid, ⟨post, by simp [hs]⟩, hm⟩
  · constructor
    · intro hm
      exact ⟨[], s.data, [], by simp, by simp, by simp, hm⟩
    · rintro ⟨pre, mid, post, hs, hpre, hpost, hm⟩
      obtain rfl := hpre trivial
      obtain rfl := hpost trivial
      simpa [hs] using hm

end regexp

/-! ## Strings -/

theorem utf8ByteSize_go_eq_zero : ∀ cs : List Char, String.utf8ByteSize.go cs = 0 ↔ cs = []
  | [] => by simp [String.utf8ByteSize.go]
  | c :: cs => by
    have := c.utf8Size_pos
    simp only [String.utf8ByteSize.go, reduceCtorEq, iff_false]
    omega

theorem utf8ByteSize_eq_zero (s : String) : s.utf8ByteSize = 0 ↔ s.data = [] := by
  obtain ⟨cs⟩ := s
  exact utf8ByteSize_go_eq_zero cs

namespace strings

theorem trimSpaceChars_eq_nil (cs : List Char) :
    trimSpaceChars cs = [] ↔ ∀ c ∈ cs, isSpace c = true := by
  unfold trimSpaceChars
  rw [List.reverse_eq_nil_iff, List.dropWhile_eq_nil_iff]
  constructor
  · intro h
    have hnil : cs.dropWhile isSpace = [] := by
      by_contra hne
      have h1 := List.head_dropWhile_not isSpace cs hne
      have h2 := h _ (List.mem_reverse.2 (List.head_mem hne))
      simp [h2] at h1
    exact List.dropWhile_eq_nil_iff.1 hnil
  · intro h c hc
    rw [List.dropWhile_eq_nil_iff.2 h] at hc
    simp at hc

theorem TrimSpace_eq_empty (s : String) :
    TrimSpace s = "" ↔ ∀ c ∈ s.data, isSpace c = true := by
  rw [← trimSpaceChars_eq_nil]
  unfold TrimSpace
  constructor
  · intro h
    exact congrArg String.data h
  · intro h
    rw [h]

end strings

namespace regexp

theorem range_mem_iff (lo hi c : Char) :
    (decide (lo.toNat ≤ c.toNat) && decide (c.toNat ≤ hi.toNat)) = true ↔ lo ≤ c ∧ c ≤ hi := by
  simp only [Bool.and_eq_true, decide_eq_true_eq]
  exact Iff.rfl

theorem point_mem_iff (x c : Char) :
    (decide (x.toNat ≤ c.toNat) && decide (c.toNat ≤ x.toNat)) = true ↔ c = x := by
  simp only [Bool.and_eq_true, decide_eq_true_eq]
  constructor
  · intro h
    apply Char.ext
    apply UInt32.ext
    exact Nat.le_antisymm h.2 h.1
  · rintro rfl
    exact ⟨Nat.le_refl _, Nat.le_refl _⟩

theorem mem_digitClass (c : Char) : Class.mem [('0', '9')] c = true ↔ IsDigit c := by
  simp only [Class.mem, List.any_cons, List.any_nil, Bool.or_false, range_mem_iff]
  exact Iff.rfl

theorem mem_lowerClass (c : Char) : Class.mem [('a', 'z')] c = true ↔ IsLower c := by
  simp only [Class.mem, List.any_cons, List.any_nil, Bool.or_false, range_mem_iff]
  exact Iff.rfl

theorem mem_upperClass (c : Char) : Class.mem [('A', 'Z')] c = true ↔ IsUpper c := by
  simp only [Class.mem, List.any_cons, List.any_nil, Bool.or_false, range_mem_iff]
  exact Iff.rfl

theorem mem_pointClass (x c : Char) : Class.mem [(x, x)] c = true ↔ c = x := by
  simp only [Class.mem, List.any_cons, List.any_nil, Bool.or_false, point_mem_iff]

theorem mem_append (a b : Class) (c : Char) :
    Class.mem (a ++ b) c = true ↔ Class.mem a c = true ∨ Class.mem b c = true := by
  simp only [Class.mem, List.any_append, Bool.or_eq_true]

theorem mem_perlW (c : Char) : perlW.mem c = true ↔ IsWord c := by
  simp only [perlW, Class.mem, List.any_cons, List.any_nil, Bool.or_false, Bool.or_eq_true,
    point_mem_iff]
  simp only [range_mem_iff, IsWord, IsDigit, IsLower, IsUpper]
  tauto

end regexp

theorem mem_symbolClass (c : Char) : symbolClass.mem c = true ↔ c ∈ passwordSymbols := by
  simp only [symbolClass, regexp.Class.mem, List.any_cons, List.any_nil, Bool.or_false,
    Bool.or_eq_true, regexp.point_mem_iff, passwordSymbols, List.mem_cons, List.mem_singleton,
    List.not_mem_nil, or_false]

theorem mem_emailLocalClass (c : Char) :
    emailLocalClass.mem c = true ↔ IsWord c ∨ c = '.' ∨ c = '-' := by
  simp only [emailLocalClass, regexp.mem_append, regexp.mem_perlW]
  rw [show ([('-', '-'), ('.', '.')] : regexp.Class) = [('-', '-')] ++ [('.', '.')] from rfl,
    regexp.mem_append, regexp.mem_pointClass, regexp.mem_pointClass]
  tauto

theorem mem_emailLabelClass (c : Char) :
    emailLabelClass.mem c = true ↔ IsWord c ∨ c = '-' := by
  simp only [emailLabelClass, regexp.mem_append, regexp.mem_perlW, regexp.mem_pointClass]

theorem mem_usernameClass (c : Char) :
    usernameClass.mem c = true ↔
      IsLower c ∨ IsUpper c ∨ IsDigit c ∨ c = '.' ∨ c = '_' ∨ c = '-' := by
  simp only [usernameClass, regexp.Class.mem, List.any_cons, List.any_nil, Bool.or_false,
    Bool.or_eq_true, regexp.point_mem_iff]
  simp only [regexp.range_mem_iff, IsDigit, IsLower, IsUpper]

/-- A one-character pattern without anchors matches when some character of the text
is in the class. -/
theorem matchString_oneOf (cl : regexp.Class) (s : String) :
    regexp.Regexp.MatchString ⟨false, regexp.Regex.rep (regexp.Regex.cls cl) 1 1, false⟩ s = true ↔
      ∃ c ∈ s.data, cl.mem c = true := by
  rw [regexp.Regexp.MatchString_iff]
  simp only [regexp.Regex.matches_rep_cls_iff cl 1 1 _ (Nat.le_refl 1)]
  constructor
  · rintro ⟨pre, mid, post, hs, -, -, h1, h2, hall⟩
    cases mid with
    | nil => simp at h1
    | cons c mid =>
      exact ⟨c, by rw [hs]; simp, hall c (List.mem_cons_self _ _)⟩
  · rintro ⟨c, hc, hm⟩
    obtain ⟨pre, post, hs⟩ := List.append_of_mem hc
    refine ⟨pre, [c], post, by simp [hs], by simp, by simp, by simp, by simp, ?_⟩
    intro d hd
    rw [List.mem_singleton] at hd
    exact hd ▸ hm

/-! ## Splitting and the loops -/

namespace strings

theorem splitChars_of_not_mem (sep : Char) :
    ∀ cs : List Char, sep ∉ cs → splitChars sep cs = [cs]
  | [], _ => rfl
  | c :: cs, h => by
    have hc : c ≠ sep := fun e => h (e ▸ List.mem_cons_self _ _)
    have hcs : sep ∉ cs := fun e => h (List.mem_cons_of_mem _ e)
    simp only [splitChars, hc, if_false, splitChars_of_not_mem sep cs hcs]

theorem splitChars_append (sep : Char) (rest : List Char) :
    ∀ cs : List Char, sep ∉ cs → splitChars sep (cs ++ sep :: rest) = cs :: splitChars sep rest
  | [], _ => by simp [splitChars]
  | c :: cs, h => by
    have hc : c ≠ sep := fun e => h (e ▸ List.mem_cons_self _ _)
    have hcs : sep ∉ cs := fun e => h (List.mem_cons_of_mem _ e)
    show splitChars sep (c :: (cs ++ sep :: rest)) = _
    simp only [splitChars, hc, if_false, splitChars_append sep rest cs hcs]

theorem Split_key_value (key value : String) (hk : '=' ∉ key.data) (hv : '=' ∉ value.data) :
    Split (key ++ "=" ++ value) '=' = [key, value] := by
  have hdata : (key ++ "=" ++ value).data = key.data ++ '=' :: value.data := by
    simp [String.data_append]
  simp only [Split, hdata, splitChars_append '=' value.data key.data hk,
    splitChars_of_not_mem '=' value.data hv, List.map_cons, List.map_nil]

end strings

theorem onInterface_exported (f : Field) (check : Value → Option String)
    (he : f.exported = true) :
    onInterface f check =
      (check f.value).map fun err => Outcome.error (f.name ++ " " ++ err) := by
  simp only [onInterface, Field.Interface, he, if_true]

theorem onInterface_unexported (f : Field) (check : Value → Option String)
    (he : f.exported = false) : onInterface f check = some (Outcome.panic reflectPanic) := by
  simp only [onInterface, Field.Interface, he, Bool.false_eq_true, if_false]

theorem String_of_concrete (f : Field) (hi : f.iface = none) : f.String = f.value.String := by
  simp only [Field.String, hi]

theorem applyFlag_min (t : String) (f : Field) (arg : String) (h : '=' ∉ arg.data)
    (he : f.exported = true) :
    applyFlag t f ("min=" ++ arg) =
      (checkMin f.value arg).map fun err => Outcome.error (f.name ++ " " ++ err) := by
  have hs : strings.Split ("min=" ++ arg) '=' = ["min", arg] :=
    strings.Split_key_value "min" arg (by decide) h
  simp only [applyFlag, hs, if_true, onInterface_exported f _ he]

theorem applyFlag_max (t : String) (f : Field) (arg : String) (h : '=' ∉ arg.data)
    (he : f.exported = true) :
    applyFlag t f ("max=" ++ arg) =
      (checkMax f.value arg).map fun err => Outcome.error (f.name ++ " " ++ err) := by
  have hs : strings.Split ("max=" ++ arg) '=' = ["max", arg] :=
    strings.Split_key_value "max" arg (by decide) h
  have hne : ¬ ("max" = "min") := by decide
  simp only [applyFlag, hs, hne, if_false, if_true, onInterface_exported f _ he]

theorem applyFlag_required (t : String) (f : Field) (he : f.exported = true) :
    applyFlag t f "required" =
      (checkRequired f.value).map fun err => Outcome.error (f.name ++ " " ++ err) := by
  have hs : strings.Split "required" '=' = ["required"] := by decide
  simp only [applyFlag, hs, if_true, onInterface_exported f _ he]

theorem applyFlag_password (t : String) (f : Field) :
    applyFlag t f "password" =
      (checkPassword f.String).map fun err => Outcome.error (f.name ++ " " ++ err) := by
  have hs : strings.Split "password" '=' = ["password"] := by decide
  have h1 : ¬ ("password" = "required") := by decide
  simp only [applyFlag, hs, h1, if_false, if_true]

theorem applyFlag_email (t : String) (f : Field) :
    applyFlag t f "email" = (checkEmail f.String).map fun err => Outcome.error err := by
  have hs : strings.Split "email" '=' = ["email"] := by decide
  have h1 : ¬ ("email" = "required") := by decide
  have h2 : ¬ ("email" = "password") := by decide
  simp only [applyFlag, hs, h1, h2, if_false, if_true]

theorem applyFlag_username (t : String) (f : Field) :
    applyFlag t f "username" =
      (checkUsername f.String).map fun err => Outcome.error err := by
  have hs : strings.Split "username" '=' = ["username"] := by decide
  have h1 : ¬ ("username" = "required") := by decide
  have h2 : ¬ ("username" = "password") := by decide
  have h3 : ¬ ("username" = "email") := by decide
  simp only [applyFlag, hs, h1, h2, h3, if_false, if_true]

theorem validateFlags_eq_none_iff (t : String) (f : Field) :
    ∀ toks : List String,
      validateFlags t f toks = none ↔ ∀ u ∈ toks, applyFlag t f u = none
  | [] => by simp [validateFlags]
  | tok :: toks => by
    simp only [validateFlags, List.mem_cons, forall_eq_or_imp]
    cases h : applyFlag t f tok with
    | none => simp [validateFlags_eq_none_iff t f toks]
    | some o => simp

theorem validateFlags_append (t : String) (f : Field) (rest : List String) :
    ∀ done : List String, (∀ u ∈ done, applyFlag t f u = none) →
      validateFlags t f (done ++ rest) = validateFlags t f rest
  | [], _ => rfl
  | tok :: done, h => by
    show validateFlags t f (tok :: (done ++ rest)) = _
    simp only [validateFlags, h tok (List.mem_cons_self _ _)]
    exact validateFlags_append t f rest done fun u hu => h u (List.mem_cons_of_mem _ hu)

theorem validateFields_append (t : String) (rest : List Field) :
    ∀ before : List Field,
      (∀ g ∈ before, ∀ gflags, g.tag = some gflags →
        ∀ u ∈ flagsArray gflags, applyFlag t g u = none) →
      validateFields t (before ++ rest) = validateFields t rest
  | [], _ => rfl
  | g :: before, h => by
    have ih := validateFields_append t rest before
      fun k hk => h k (List.mem_cons_of_mem _ hk)
    show validateFields t (g :: (before ++ rest)) = _
    cases hg : g.tag with
    | none => simp only [validateFields, hg, ih]
    | some gflags =>
      have hnone := (validateFlags_eq_none_iff t g (flagsArray gflags)).2
        (h g (List.mem_cons_self _ _) gflags hg)
      simp only [validateFields, hg, hnone, ih]

/-- When the loops get to a token whose dispatch ends the call, the call ends with
that outcome. -/
theorem Validate_of_reaches (data : Record) (f : Field) (tok : String) (o : Outcome)
    (hr : Reaches data f tok) (ho : applyFlag data.typeName f tok = some o) :
    Validate data = o := by
  obtain ⟨before, after, flags, done, todo, hfields, htag, htoks, hbefore, hdone⟩ := hr
  unfold Validate
  rw [hfields, validateFields_append data.typeName (f :: after) before hbefore]
  simp only [validateFields, htag, htoks]
  rw [validateFlags_append data.typeName f (tok :: todo) done hdone]
  simp only [validateFlags, ho]

theorem plus_pieces (a : regexp.Regex) (x : List Char) :
    (regexp.Regex.plus a).Matches x ↔
      ∃ L : List (List Char), L ≠ [] ∧ x = L.flatten ∧ ∀ y ∈ L, a.Matches y := by
  unfold regexp.Regex.plus
  rw [regexp.Regex.matches_seq_iff]
  constructor
  · rintro ⟨u, v, rfl, hu, hv⟩
    obtain ⟨L, rfl, hall⟩ := (regexp.Regex.matches_star_iff a v).1 hv
    refine ⟨u :: L, by simp, by simp, ?_⟩
    intro y hy
    rcases List.mem_cons.1 hy with rfl | hy
    · exact hu
    · exact hall y hy
  · rintro ⟨L, hne, rfl, hall⟩
    cases L with
    | nil => exact absurd rfl hne
    | cons u L =>
      exact ⟨u, L.flatten, by simp, hall u (List.mem_cons_self _ _),
        (regexp.Regex.matches_star_iff a _).2
          ⟨L, rfl, fun y hy => hall y (List.mem_cons_of_mem _ hy)⟩⟩

theorem exists_map_of_forall {α β : Type} (f : α → β) (P : α → Prop) :
    ∀ L : List β, (∀ y ∈ L, ∃ l, y = f l ∧ P l) → ∃ ls : List α, L = ls.map f ∧ ∀ l ∈ ls, P l
  | [], _ => ⟨[], rfl, fun _ h => by cases h⟩
  | y :: L, h => by
    obtain ⟨l, rfl, hl⟩ := h y (List.mem_cons_self _ _)
    obtain ⟨ls, rfl, hls⟩ := exists_map_of_forall f P L fun z hz => h z (List.mem_cons_of_mem _ hz)
    refine ⟨l :: ls, rfl, ?_⟩
    intro k hk
    rcases List.mem_cons.1 hk with rfl | hk
    · exact hl
    · exact hls k hk

/-- The words of an address pattern whose local part is drawn from `loc` and whose
labels and last segment are drawn from `lab`. -/
theorem emailBody_matches (locCl lab : regexp.Class) (x : List Char) :
    (regexp.Regex.seq (regexp.Regex.plus (regexp.Regex.cls locCl))
      (regexp.Regex.seq (regexp.Regex.cls [('@', '@')])
        (regexp.Regex.seq
          (regexp.Regex.plus
            (regexp.Regex.seq (regexp.Regex.plus (regexp.Regex.cls lab))
              (regexp.Regex.cls [('.', '.')])))
          (regexp.Regex.rep (regexp.Regex.cls lab) 2 24)))).Matches x ↔
      ∃ (loc : List Char) (labels : List (List Char)) (tld : List Char),
        x = loc ++ '@' :: ((labels.map fun l => l ++ ['.']).flatten ++ tld) ∧
        loc ≠ [] ∧ (∀ c ∈ loc, locCl.mem c = true) ∧
        labels ≠ [] ∧ (∀ l ∈ labels, l ≠ [] ∧ ∀ c ∈ l, lab.mem c = true) ∧
        2 ≤ tld.length ∧ tld.length ≤ 24 ∧ ∀ c ∈ tld, lab.mem c = true := by
  have hlabel : ∀ y : List Char,
      (regexp.Regex.seq (regexp.Regex.plus (regexp.Regex.cls lab))
        (regexp.Regex.cls [('.', '.')])).Matches y ↔
        ∃ l : List Char, y = (fun l => l ++ ['.']) l ∧ (l ≠ [] ∧ ∀ c ∈ l, lab.mem c = true) := by
    intro y
    rw [regexp.Regex.matches_seq_iff]
    constructor
    · rintro ⟨u, v, rfl, hu, hv⟩
      obtain ⟨d, rfl, hd⟩ := (regexp.Regex.matches_cls_iff _ v).1 hv
      rw [regexp.mem_pointClass] at hd
      subst hd
      exact ⟨u, rfl, (regexp.Regex.matches_plus_cls_iff lab u).1 hu⟩
    · rintro ⟨l, rfl, hl⟩
      exact ⟨l, ['.'], rfl, (regexp.Regex.matches_plus_cls_iff lab l).2 hl,
        regexp.Regex.Matches.cls ((regexp.mem_pointClass '.' '.').2 rfl)⟩
  constructor
  · intro h
    obtain ⟨loc, r1, rfl, hloc, h1⟩ := (regexp.Regex.matches_seq_iff _ _ _).1 h
    obtain ⟨at1, r2, rfl, hat, h2⟩ := (regexp.Regex.matches_seq_iff _ _ _).1 h1
    obtain ⟨mid, tld, rfl, hmid, htld⟩ := (regexp.Regex.matches_seq_iff _ _ _).1 h2
    obtain ⟨d, rfl, hd⟩ := (regexp.Regex.matches_cls_iff _ at1).1 hat
    rw [regexp.mem_pointClass] at hd
    subst hd
    obtain ⟨hl1, hl2⟩ := (regexp.Regex.matches_plus_cls_iff locCl loc).1 hloc
    obtain ⟨L, hLne, rfl, hL⟩ := (plus_pieces _ mid).1 hmid
    obtain ⟨labels, rfl, hlabels⟩ :=
      exists_map_of_forall (fun l : List Char => l ++ ['.'])
        (fun l => l ≠ [] ∧ ∀ c ∈ l, lab.mem c = true) L
        (fun y hy => (hlabel y).1 (hL y hy))
    obtain ⟨t1, t2, t3⟩ :=
      (regexp.Regex.matches_rep_cls_iff lab 2 24 tld (by decide)).1 htld
    refine ⟨loc, labels, tld, by simp, hl1, hl2, ?_, hlabels, t1, t2, t3⟩
    intro hnil
    apply hLne
    rw [hnil]
    rfl
  · rintro ⟨loc, labels, tld, rfl, hl1, hl2, hne, hlabels, t1, t2, t3⟩
    refine regexp.Regex.Matches.seq ((regexp.Regex.matches_plus_cls_iff locCl loc).2 ⟨hl1, hl2⟩) ?_
    refine regexp.Regex.Matches.seq (x := ['@'])
      (regexp.Regex.Matches.cls ((regexp.mem_pointClass '@' '@').2 rfl)) ?_
    refine regexp.Regex.Matches.seq ?_
      ((regexp.Regex.matches_rep_cls_iff lab 2 24 tld (by decide)).2 ⟨t1, t2, t3⟩)
    refine (plus_pieces _ _).2 ⟨labels.map fun l => l ++ ['.'], ?_, rfl, ?_⟩
    · intro hnil
      exact hne (List.map_eq_nil_iff.1 hnil)
    · intro y hy
      obtain ⟨l, hl, rfl⟩ := List.mem_map.1 hy
      exact (hlabel _).2 ⟨l, rfl, hlabels l hl⟩

theorem specEmailLocalClass_mem (c : Char) :
    specEmailLocalClass.mem c = true ↔ IsWord c ∨ c = '.' ∨ c = '-' := by
  simp only [specEmailLocalClass, regexp.mem_append, regexp.mem_perlW]
  rw [show ([('.', '.'), ('-', '-')] : regexp.Class) = [('.', '.')] ++ [('-', '-')] from rfl,
    regexp.mem_append, regexp.mem_pointClass, regexp.mem_pointClass]

/-! ## `min` and `max` -/

theorem utf8ByteSize_ascii (s : String) (h : ∀ c ∈ s.data, c.toNat < 128) :
    s.utf8ByteSize = s.length := by
  obtain ⟨cs⟩ := s
  show String.utf8ByteSize.go cs = cs.length
  induction cs with
  | nil => rfl
  | cons c cs ih =>
    have hc : c.utf8Size = 1 := by
      have h1 : c.val.toNat < 128 := h c (List.mem_cons_self _ _)
      have h2 : c.val ≤ 127 := by
        show c.val.toNat ≤ 127
        omega
      simp [Char.utf8Size, h2]
    simp only [String.utf8ByteSize.go, List.length_cons, hc]
    rw [ih fun d hd => h d (List.mem_cons_of_mem _ hd)]

/-! ## Arguments that are not integers -/

theorem isDigit_iff (c : Char) : strconv.isDigit c = true ↔ IsDigit c :=
  regexp.range_mem_iff '0' '9' c

theorem atoiDigits_of_not_digits (neg : Bool) (ds : List Char)
    (h : ¬ (ds ≠ [] ∧ ∀ c ∈ ds, IsDigit c)) : strconv.atoiDigits neg ds = none := by
  by_cases hc : (ds.isEmpty || !ds.all strconv.isDigit) = true
  · simp only [strconv.atoiDigits, hc, if_true]
  · exfalso
    apply h
    simp only [Bool.or_eq_true, List.isEmpty_iff, Bool.not_eq_true', not_or,
      Bool.not_eq_false, List.all_eq_true] at hc
    exact ⟨hc.1, fun c hcm => (isDigit_iff c).1 (hc.2 c hcm)⟩

theorem Atoi_of_not_decimal (arg : String) (h : ¬ IsDecimalInteger arg) :
    strconv.Atoi arg = none := by
  unfold strconv.Atoi
  split
  · next rest hrest =>
    exact atoiDigits_of_not_digits true rest
      fun hd => h ⟨rest, hd.1, hd.2, Or.inr (Or.inl hrest)⟩
  · next rest hrest =>
    exact atoiDigits_of_not_digits false rest
      fun hd => h ⟨rest, hd.1, hd.2, Or.inr (Or.inr hrest)⟩
  · exact atoiDigits_of_not_digits false arg.data
      fun hd => h ⟨arg.data, hd.1, hd.2, Or.inl rfl⟩

theorem reaches_single (t : String) (f : Field) (flags tok : String)
    (htag : f.tag = some flags) (htoks : flagsArray flags = [tok]) :
    Reaches ⟨t, [f]⟩ f tok :=
  ⟨[], [], flags, [], [], rfl, htag, htoks, (fun _ h => by cases h), (fun _ h => by cases h)⟩

theorem abc_not_decimal : ¬ IsDecimalInteger "abc" := by
  rintro ⟨ds, _, hall, h | h | h⟩
  · have h1 : 'a' ∈ ds := by
      rw [← h]
      decide
    exact absurd (hall _ h1) (by decide)
  · have h0 : "abc".data.head? = some 'a' := rfl
    rw [h, List.head?_cons] at h0
    exact absurd h0 (by decide)
  · have h0 : "abc".data.head? = some 'a' := rfl
    rw [h, List.head?_cons] at h0
    exact absurd h0 (by decide)

/-! ## First failure -/

theorem strings.splitChars_length (sep : Char) :
    ∀ cs : List Char, (strings.splitChars sep cs).length = cs.count sep + 1
  | [] => rfl
  | c :: cs => by
    have ih := strings.splitChars_length sep cs
    by_cases hc : c = sep
    · subst hc
      simp only [strings.splitChars, if_true, List.length_cons, ih, List.count_cons_self]
    · have hcount : (c :: cs).count sep = cs.count sep := List.count_cons_of_ne (Ne.symm hc) cs
      rw [hcount, ← ih]
      simp only [strings.splitChars, hc, if_false]
      cases h : strings.splitChars sep cs with
      | nil => rw [h] at ih; simp at ih
      | cons piece pieces => rfl

theorem count_one_split (sep : Char) :
    ∀ cs : List Char, cs.count sep = 1 →
      ∃ a b : List Char, cs = a ++ sep :: b ∧ sep ∉ a ∧ sep ∉ b
  | [], h => by simp at h
  | c :: cs, h => by
    by_cases hc : c = sep
    · subst hc
      rw [List.count_cons_self] at h
      have h0 : cs.count c = 0 := by omega
      exact ⟨[], cs, rfl, List.not_mem_nil _, List.count_eq_zero.1 h0⟩
    · rw [List.count_cons_of_ne (Ne.symm hc)] at h
      obtain ⟨a, b, rfl, ha, hb⟩ := count_one_split sep cs h
      refine ⟨c :: a, b, rfl, ?_, hb⟩
      intro hmem
      rcases List.mem_cons.1 hmem with e | e
      · exact hc e.symm
      · exact ha e

theorem Split_of_no_eq (tok : String) (h : '=' ∉ tok.data) :
    strings.Split tok '=' = [tok] := by
  simp only [strings.Split, strings.splitChars_of_not_mem '=' tok.data h, List.map_cons,
    List.map_nil]

theorem applyFlag_no_eq (t : String) (f : Field) (tok : String) (h : '=' ∉ tok.data) :
    applyFlag t f tok = dispatchFlag t f tok := by
  simp only [applyFlag, Split_of_no_eq tok h, dispatchFlag]

theorem applyFlag_key_value (t : String) (f : Field) (key value : String)
    (hk : '=' ∉ key.data) (hv : '=' ∉ value.data) :
    applyFlag t f (key ++ "=" ++ value) = dispatchParam f key value := by
  simp only [applyFlag, strings.Split_key_value key value hk hv, dispatchParam]

theorem applyFlag_many_eq (t : String) (f : Field) (tok : String)
    (h : 2 ≤ tok.data.count '=') :
    applyFlag t f tok = some (Outcome.fatal ("'" ++ tok ++ "' invalid format at " ++ t)) := by
  have hlen : 3 ≤ (strings.Split tok '=').length := by
    simp only [strings.Split, List.length_map, strings.splitChars_length]
    omega
  unfold applyFlag
  cases hs : strings.Split tok '=' with
  | nil => simp [hs] at hlen
  | cons x l1 =>
    cases l1 with
    | nil => simp [hs] at hlen
    | cons y l2 =>
      cases l2 with
      | nil => simp [hs] at hlen
      | cons z l3 => simp only []

theorem dispatchFlag_unknown (t : String) (f : Field) (key : String)
    (h1 : key ≠ "required") (h2 : key ≠ "password") (h3 : key ≠ "email")
    (h4 : key ≠ "username") :
    dispatchFlag t f key = some (Outcome.fatal ("'" ++ key ++ "' invalid key at " ++ t)) := by
  simp only [dispatchFlag, h1, h2, h3, h4, if_false]

theorem dispatchParam_unknown (f : Field) (key value : String)
    (h1 : key ≠ "min") (h2 : key ≠ "max") :
    dispatchParam f key value = some (Outcome.error (key ++ " invalid key")) := by
  simp only [dispatchParam, h1, h2, if_false]

/-- The dispatch on a fatal token aborts, with a text that does not mention the field. -/
theorem applyFlag_fatalToken (t : String) (tok : String) (h : FatalToken tok) :
    ∃ msg : String, (∀ g : Field, applyFlag t g tok = some (Outcome.fatal msg)) := by
  rcases h with h | ⟨h0, h1, h2, h3, h4⟩
  · exact ⟨_, fun g => applyFlag_many_eq t g tok h⟩
  · refine ⟨"'" ++ tok ++ "' invalid key at " ++ t, fun g => ?_⟩
    rw [applyFlag_no_eq t g tok h0]
    exact dispatchFlag_unknown t g tok h1 h2 h3 h4

/-! ## Fields without annotation -/

theorem validateFields_skip (t : String) (f : Field) (post : List Field) (h : f.tag = none) :
    ∀ pre : List Field, validateFields t (pre ++ f :: post) = validateFields t (pre ++ post)
  | [] => by
    show validateFields t (f :: post) = validateFields t post
    simp only [validateFields, h]
  | g :: pre => by
    have ih := validateFields_skip t f post h pre
    show validateFields t (g :: (pre ++ f :: post)) = validateFields t (g :: (pre ++ post))
    simp only [validateFields, ih]

theorem validateFields_unannotated (t : String) :
    ∀ fields : List Field, (∀ f ∈ fields, f.tag = none) → validateFields t fields = Outcome.ok
  | [], _ => rfl
  | f :: fields, h => by
    simp only [validateFields, h f (List.mem_cons_self _ _)]
    exact validateFields_unannotated t fields fun g hg => h g (List.mem_cons_of_mem _ hg)

theorem reaches_first (data : Record) (before after : List Field) (f : Field)
    (flags tok : String) (todo : List String)
    (hfields : data.fields = before ++ f :: after) (hbefore : ∀ g ∈ before, g.tag = none)
    (htag : f.tag = some flags) (htoks : flagsArray flags = tok :: todo) :
    Reaches data f tok :=
  ⟨before, after, flags, [], todo, hfields, htag, htoks,
    (fun g hg gflags hgt => by rw [hbefore g hg] at hgt; cases hgt),
    (fun _ h => by cases h)⟩

/-! ## Stripping of white space -/

theorem flatMap_drop_eq_filter (w : Char) (new : List Char) (hnew : new = []) :
    ∀ cs : List Char,
      (cs.flatMap fun c => if c = w then new else [c]) = cs.filter fun c => decide (c ≠ w)
  | [] => rfl
  | c :: cs => by
    have ih := flatMap_drop_eq_filter w new hnew cs
    subst hnew
    by_cases hc : c = w
    · simp [List.flatMap_cons, hc, ih]
    · simp [List.flatMap_cons, hc, ih]

theorem ReplaceAll_empty_data (s : String) (w : Char) :
    (strings.ReplaceAll s w "").data = s.data.filter fun c => decide (c ≠ w) :=
  flatMap_drop_eq_filter w "".data rfl s.data

theorem trimWhiteSpaces_data (s : String) :
    (trimWhiteSpaces s).data = s.data.filter fun c => decide (c ∉ strippedChars) := by
  simp only [trimWhiteSpaces, List.foldl_cons, List.foldl_nil, ReplaceAll_empty_data,
    List.filter_filter]
  apply List.filter_congr
  intro c _
  simp only [strippedChars, List.mem_cons, List.mem_singleton, List.not_mem_nil, or_false,
    not_or, Bool.decide_and, Bool.and_eq_true, decide_eq_true_eq, ne_eq, Bool.decide_eq_true]
  by_cases h1 : c = ' ' <;> by_cases h2 : c = '\t' <;> by_cases h3 : c = Char.ofNat 11 <;>
    by_cases h4 : c = '\n' <;> simp [h1, h2, h3, h4]

theorem trimWhiteSpaces_of_clean (s : String) (h : ∀ c ∈ s.data, c ∉ strippedChars) :
    trimWhiteSpaces s = s := by
  apply String.ext
  rw [trimWhiteSpaces_data, List.filter_eq_self]
  intro c hc
  exact decide_eq_true (h c hc)

theorem trimWhiteSpaces_clean (s : String) : ∀ c ∈ (trimWhiteSpaces s).data, c ∉ strippedChars := by
  intro c hc
  rw [trimWhiteSpaces_data, List.mem_filter] at hc
  exact of_decide_eq_true hc.2

theorem applyFlag_tag_irrelevant (t name : String) (tag1 tag2 : Option String) (v : Value)
    (e : Bool) (i : Option String) (tok : String) :
    applyFlag t ⟨name, tag1, v, e, i⟩ tok = applyFlag t ⟨name, tag2, v, e, i⟩ tok := rfl

theorem validateFlags_tag_irrelevant (t name : String) (tag1 tag2 : Option String) (v : Value)
    (e : Bool) (i : Option String) :
    ∀ toks : List String,
      validateFlags t ⟨name, tag1, v, e, i⟩ toks = validateFlags t ⟨name, tag2, v, e, i⟩ toks
  | [] => rfl
  | tok :: toks => by
    simp only [validateFlags, applyFlag_tag_irrelevant t name tag1 tag2 v e i tok,
      validateFlags_tag_irrelevant t name tag1 tag2 v e i toks]

theorem validateFields_same_tokens (t name : String) (a1 a2 : String) (v : Value)
    (e : Bool) (i : Option String) (post : List Field) (h : flagsArray a1 = flagsArray a2) :
    ∀ pre : List Field,
      validateFields t (pre ++ ⟨name, some a1, v, e, i⟩ :: post) =
        validateFields t (pre ++ ⟨name, some a2, v, e, i⟩ :: post)
  | [] => by
    show validateFields t (⟨name, some a1, v, e, i⟩ :: post) =
      validateFields t (⟨name, some a2, v, e, i⟩ :: post)
    simp only [validateFields, h,
      validateFlags_tag_irrelevant t name (some a1) (some a2) v e i]
  | g :: pre => by
    have ih := validateFields_same_tokens t name a1 a2 v e i post h pre
    show validateFields t (g :: (pre ++ ⟨name, some a1, v, e, i⟩ :: post)) =
      validateFields t (g :: (pre ++ ⟨name, some a2, v, e, i⟩ :: post))
    simp only [validateFields, ih]

/-! ## Empty tokens -/

theorem digitChar_isDigit (k : Nat) (h : k < 10) :
    strconv.isDigit (Nat.digitChar k) = true ∧ (Nat.digitChar k).toNat - 48 = k := by
  interval_cases k <;> decide

theorem toDigitsCore_ne_nil (fuel n : Nat) (ds : List Char) (h : ds ≠ []) :
    Nat.toDigitsCore 10 fuel n ds ≠ [] := by
  induction fuel generalizing n ds with
  | zero => exact h
  | succ fuel ih =>
    simp only [Nat.toDigitsCore]
    split
    · exact List.cons_ne_nil _ _
    · exact ih _ _ (List.cons_ne_nil _ _)

theorem toDigits_ne_nil (n : Nat) : Nat.toDigits 10 n ≠ [] := by
  simp only [Nat.toDigits, Nat.toDigitsCore]
  split
  · exact List.cons_ne_nil _ _
  · exact toDigitsCore_ne_nil _ _ _ (List.cons_ne_nil _ _)

theorem toDigitsCore_isDigit (fuel n : Nat) (ds : List Char)
    (h : ∀ c ∈ ds, strconv.isDigit c = true) :
    ∀ c ∈ Nat.toDigitsCore 10 fuel n ds, strconv.isDigit c = true := by
  induction fuel generalizing n ds with
  | zero => exact h
  | succ fuel ih =>
    have hd : ∀ c ∈ Nat.digitChar (n % 10) :: ds, strconv.isDigit c = true := by
      intro c hc
      rcases List.mem_cons.1 hc with rfl | hc
      · exact (digitChar_isDigit _ (Nat.mod_lt _ (by decide))).1
      · exact h c hc
    simp only [Nat.toDigitsCore]
    split
    · exact hd
    · exact ih _ _ hd

theorem toDigits_isDigit (n : Nat) : ∀ c ∈ Nat.toDigits 10 n, strconv.isDigit c = true :=
  toDigitsCore_isDigit _ _ [] (fun _ h => by cases h)

theorem toDigitsCore_value (fuel n : Nat) (ds : List Char) (h : n < fuel) :
    (Nat.toDigitsCore 10 fuel n ds).foldl (fun acc c => acc * 10 + (c.toNat - 48)) 0 =
      ds.foldl (fun acc c => acc * 10 + (c.toNat - 48)) n := by
  induction fuel generalizing n ds with
  | zero => omega
  | succ fuel ih =>
    have hdig := (digitChar_isDigit (n % 10) (Nat.mod_lt _ (by decide))).2
    simp only [Nat.toDigitsCore]
    split
    · next h0 =>
      simp only [List.foldl_cons, hdig]
      congr 1
      omega
    · next h0 =>
      have hlt : n / 10 < fuel := by omega
      rw [ih _ _ hlt]
      simp only [List.foldl_cons, hdig]
      congr 1
      omega

theorem digitsValue_toDigits (n : Nat) : strconv.digitsValue (Nat.toDigits 10 n) = n := by
  simp only [strconv.digitsValue, Nat.toDigits]
  rw [toDigitsCore_value (n + 1) n [] (Nat.lt_succ_self n)]
  rfl

theorem atoiDigits_toDigits (neg : Bool) (n : Nat)
    (h : -(2 : Int) ^ 63 ≤ (if neg then -(n : Int) else (n : Int)) ∧
      (if neg then -(n : Int) else (n : Int)) < (2 : Int) ^ 63) :
    strconv.atoiDigits neg (Nat.toDigits 10 n) = some (if neg then -(n : Int) else (n : Int)) := by
  have h1 : (Nat.toDigits 10 n).isEmpty = false := by
    cases hd : Nat.toDigits 10 n with
    | nil => exact absurd hd (toDigits_ne_nil n)
    | cons _ _ => rfl
  have h2 : (Nat.toDigits 10 n).all strconv.isDigit = true :=
    List.all_eq_true.2 (toDigits_isDigit n)
  simp only [strconv.atoiDigits, h1, h2, digitsValue_toDigits, Bool.not_true, Bool.or_self,
    Bool.false_eq_true, if_false]
  rw [if_pos h]

/-- The decimal numeral of an `int` reads back as that `int`. -/
theorem Atoi_formatInt (n : Int) (hlo : -(2 : Int) ^ 63 ≤ n) (hhi : n < (2 : Int) ^ 63) :
    strconv.Atoi (formatInt n) = some n := by
  cases n with
  | ofNat k =>
    have hdata : (formatInt (Int.ofNat k)).data = Nat.toDigits 10 k := rfl
    have hdig := toDigits_isDigit k
    unfold strconv.Atoi
    split
    · next rest hrest =>
      rw [hdata] at hrest
      have := hdig '-' (by rw [hrest]; exact List.mem_cons_self _ _)
      exact absurd this (by decide)
    · next rest hrest =>
      rw [hdata] at hrest
      have := hdig '+' (by rw [hrest]; exact List.mem_cons_self _ _)
      exact absurd this (by decide)
    · rw [hdata]
      exact atoiDigits_toDigits false k ⟨hlo, hhi⟩
  | negSucc k =>
    have hdata : (formatInt (Int.negSucc k)).data = '-' :: Nat.toDigits 10 (k + 1) := rfl
    have hval : (if true = true then -((k + 1 : Nat) : Int) else ((k + 1 : Nat) : Int)) =
        Int.negSucc k := by
      simp only [if_true]
      rfl
    unfold strconv.Atoi
    rw [hdata]
    show strconv.atoiDigits true (Nat.toDigits 10 (k + 1)) = some (Int.negSucc k)
    rw [atoiDigits_toDigits true (k + 1) (by rw [hval]; exact ⟨hlo, hhi⟩), hval]

theorem parseInt_formatInt (n : Int) (hlo : -(2 : Int) ^ 63 ≤ n) (hhi : n < (2 : Int) ^ 63) :
    parseInt (formatInt n) = Except.ok n := by
  simp only [parseInt, Atoi_formatInt n hlo hhi]

theorem atoiDigits_some (neg : Bool) (ds : List Char) (m : Int)
    (h : strconv.atoiDigits neg ds = some m) :
    (∀ c ∈ ds, strconv.isDigit c = true) ∧ -(2 : Int) ^ 63 ≤ m ∧ m < (2 : Int) ^ 63 := by
  by_cases hc : (ds.isEmpty || !ds.all strconv.isDigit) = true
  · simp only [strconv.atoiDigits, hc, if_true] at h
    cases h
  · simp only [strconv.atoiDigits, hc, Bool.false_eq_true, if_false] at h
    generalize (if neg = true then -(strconv.digitsValue ds : Int)
      else (strconv.digitsValue ds : Int)) = v at h
    simp only [Bool.or_eq_true, Bool.not_eq_true', not_or, Bool.not_eq_false,
      List.all_eq_true] at hc
    by_cases hr : -(2 : Int) ^ 63 ≤ v ∧ v < (2 : Int) ^ 63
    · rw [if_pos hr, Option.some.injEq] at h
      subst h
      exact ⟨hc.2, hr⟩
    · rw [if_neg hr] at h
      exact Option.noConfusion h

/-- An argument that parses has only digits after an optional sign, and its value fits
an `int`. -/
theorem Atoi_some (arg : String) (m : Int) (h : strconv.Atoi arg = some m) :
    (∀ c ∈ arg.data, strconv.isDigit c = true ∨ c = '-' ∨ c = '+') ∧
      -(2 : Int) ^ 63 ≤ m ∧ m < (2 : Int) ^ 63 := by
  unfold strconv.Atoi at h
  split at h
  · next rest hrest =>
    obtain ⟨hd, hr⟩ := atoiDigits_some _ _ _ h
    refine ⟨?_, hr⟩
    intro c hc
    rw [hrest] at hc
    rcases List.mem_cons.1 hc with rfl | hc
    · exact Or.inr (Or.inl rfl)
    · exact Or.inl (hd c hc)
  · next rest hrest =>
    obtain ⟨hd, hr⟩ := atoiDigits_some _ _ _ h
    refine ⟨?_, hr⟩
    intro c hc
    rw [hrest] at hc
    rcases List.mem_cons.1 hc with rfl | hc
    · exact Or.inr (Or.inr rfl)
    · exact Or.inl (hd c hc)
  · obtain ⟨hd, hr⟩ := atoiDigits_some _ _ _ h
    exact ⟨fun c hc => Or.inl (hd c hc), hr⟩

theorem parseInt_ok (arg : String) (m : Int) (h : parseInt arg = Except.ok m) :
    strconv.Atoi arg = some m := by
  unfold parseInt at h
  cases ha : strconv.Atoi arg with
  | none => rw [ha] at h; cases h
  | some n =>
    rw [ha] at h
    cases h
    rfl

theorem parsed_clean (arg : String) (m : Int) (h : parseInt arg = Except.ok m) (d : Char)
    (hd : strconv.isDigit d = false) (h1 : d ≠ '-') (h2 : d ≠ '+') : d ∉ arg.data := by
  intro hmem
  rcases (Atoi_some arg m (parseInt_ok arg m h)).1 d hmem with e | e | e
  · rw [e] at hd
    cases hd
  · exact h1 e
  · exact h2 e

/-! ## A range on one field -/

theorem parsed_not_stripped (arg : String) (m : Int) (h : parseInt arg = Except.ok m) :
    ∀ c ∈ arg.data, c ∉ strippedChars := by
  intro c hc hs
  simp only [strippedChars, List.mem_cons, List.mem_singleton, List.not_mem_nil,
    or_false] at hs
  rcases hs with rfl | rfl | rfl | rfl
  · exact parsed_clean arg m h _ (by decide) (by decide) (by decide) hc
  · exact parsed_clean arg m h _ (by decide) (by decide) (by decide) hc
  · exact parsed_clean arg m h _ (by decide) (by decide) (by decide) hc
  · exact parsed_clean arg m h _ (by decide) (by decide) (by decide) hc

theorem flagsArray_min_max (sa sb : String) (a b : Int) (ha : parseInt sa = Except.ok a)
    (hb : parseInt sb = Except.ok b) :
    flagsArray ("min=" ++ sa ++ ",max=" ++ sb) = ["min=" ++ sa, "max=" ++ sb] := by
  have hca : ',' ∉ sa.data := parsed_clean sa a ha _ (by decide) (by decide) (by decide)
  have hcb : ',' ∉ sb.data := parsed_clean sb b hb _ (by decide) (by decide) (by decide)
  have hclean : ∀ c ∈ ("min=" ++ sa ++ ",max=" ++ sb).data, c ∉ strippedChars := by
    intro c hc
    simp only [String.data_append, List.mem_append] at hc
    rcases hc with ((hc | hc) | hc) | hc
    · revert c
      decide
    · exact parsed_not_stripped sa a ha c hc
    · revert c
      decide
    · exact parsed_not_stripped sb b hb c hc
  have hdata : ("min=" ++ sa ++ ",max=" ++ sb).data =
      ("min=" ++ sa).data ++ ',' :: ("max=" ++ sb).data := by
    simp only [String.data_append, List.append_assoc]
    rfl
  have h1 : ',' ∉ ("min=" ++ sa).data := by
    simp only [String.data_append, List.mem_append, not_or]
    exact ⟨by decide, hca⟩
  have h2 : ',' ∉ ("max=" ++ sb).data := by
    simp only [String.data_append, List.mem_append, not_or]
    exact ⟨by decide, hcb⟩
  simp only [flagsArray, trimWhiteSpaces_of_clean _ hclean, strings.Split, hdata,
    strings.splitChars_append ',' _ _ h1, strings.splitChars_of_not_mem ',' _ h2,
    List.map_cons, List.map_nil]

theorem Validate_min_max (t F : String) (v a b : Int) (sa sb : String) (i : Option String)
    (ha : parseInt sa = Except.ok a) (hb : parseInt sb = Except.ok b) :
    Validate ⟨t, [⟨F, some ("min=" ++ sa ++ ",max=" ++ sb), Value.int v, true, i⟩]⟩ =
      if v < a then
        Outcome.error (F ++ " " ++
          ("value (" ++ formatInt v ++ ") is lower than minimum value (" ++ formatInt a ++ ")"))
      else if v > b then
        Outcome.error (F ++ " " ++
          ("value (" ++ formatInt v ++ ") is higher than maximum value (" ++ formatInt b ++ ")"))
      else Outcome.ok := by
  have hea : '=' ∉ sa.data := parsed_clean sa a ha _ (by decide) (by decide) (by decide)
  have heb : '=' ∉ sb.data := parsed_clean sb b hb _ (by decide) (by decide) (by decide)
  have hmin := applyFlag_min t
    ⟨F, some ("min=" ++ sa ++ ",max=" ++ sb), Value.int v, true, i⟩ sa hea rfl
  have hmax := applyFlag_max t
    ⟨F, some ("min=" ++ sa ++ ",max=" ++ sb), Value.int v, true, i⟩ sb heb rfl
  simp only [Validate, validateFields, flagsArray_min_max sa sb a b ha hb, validateFlags,
    hmin, hmax, checkMin, checkMax, ha, hb]
  by_cases h1 : v < a
  · simp only [h1, if_true, Option.map_some']
  · by_cases h2 : v > b
    · simp only [h1, h2, if_false, if_true, Option.map_none', Option.map_some']
    · simp only [h1, h2, if_false, Option.map_none']

theorem text_length (rest : String) : " " ++ ("length (" ++ rest) = " length (" ++ rest := by
  rw [← String.append_assoc]
  rfl

theorem text_value (rest : String) : " " ++ ("value (" ++ rest) = " value (" ++ rest := by
  rw [← String.append_assoc]
  rfl

theorem sameShape_first (data other : Record) (before after : List Field) (f : Field)
    (hs : SameShape data other) (hfields : data.fields = before ++ f :: after)
    (hbefore : ∀ g ∈ before, g.tag = none) :
    ∃ (before1 after1 : List Field) (f1 : Field),
      other.fields = before1 ++ f1 :: after1 ∧ (∀ g ∈ before1, g.tag = none) ∧
        f1.tag = f.tag := by
  obtain ⟨_, hmap⟩ := hs
  rw [hfields, List.map_append, List.map_cons] at hmap
  obtain ⟨l1, l2, hl, h1, h2⟩ := List.map_eq_append_iff.1 hmap.symm
  obtain ⟨f1, l3, rfl, hf1, _⟩ := List.map_eq_cons_iff.1 h2
  refine ⟨l1, l3, f1, hl, ?_, congrArg Prod.snd hf1⟩
  intro g hg
  have hmem : (g.name, g.tag) ∈ before.map fun k => (k.name, k.tag) := by
    rw [← h1]
    exact List.mem_map.2 ⟨g, hg, rfl⟩
  obtain ⟨k, hk, hkg⟩ := List.mem_map.1 hmem
  have e : k.tag = g.tag := congrArg Prod.snd hkg
  rw [← e]
  exact hbefore k hk

/-! ## The type name shows only in the text of an abort -/

theorem applyFlag_typeName (t1 t2 : String) (f : Field) (tok : String) :
    (applyFlag t1 f tok).map Outcome.kind = (applyFlag t2 f tok).map Outcome.kind := by
  unfold applyFlag
  split
  · split_ifs <;> rfl
  · rfl
  · rfl

theorem validateFlags_typeName (t1 t2 : String) (f : Field) :
    ∀ toks : List String,
      (validateFlags t1 f toks).map Outcome.kind = (validateFlags t2 f toks).map Outcome.kind
  | [] => rfl
  | tok :: toks => by
    have h := applyFlag_typeName t1 t2 f tok
    have ih := validateFlags_typeName t1 t2 f toks
    simp only [validateFlags]
    cases h1 : applyFlag t1 f tok <;> cases h2 : applyFlag t2 f tok <;>
      simp only [h1, h2, Option.map_none', Option.map_some', reduceCtorEq] at h
    · exact ih
    · simp only [Option.map_some', h]

theorem validateFields_typeName (t1 t2 : String) :
    ∀ fields : List Field, (validateFields t1 fields).kind = (validateFields t2 fields).kind
  | [] => rfl
  | f :: fields => by
    have ih := validateFields_typeName t1 t2 fields
    cases hf : f.tag with
    | none => simp only [validateFields, hf, ih]
    | some flags =>
      have h := validateFlags_typeName t1 t2 f (flagsArray flags)
      simp only [validateFields, hf]
      cases h1 : validateFlags t1 f (flagsArray flags) <;>
        cases h2 : validateFlags t2 f (flagsArray flags) <;>
        simp only [h1, h2, Option.map_none', Option.map_some', reduceCtorEq,
          Option.some.injEq] at h
      · exact ih
      · exact h

/-! # The claims of the specification -/

/-- C2 as stated fails for a field name that is not exported: on `age int` annotated
`required` and holding 0, `Validate` panics and returns no error text. -/
theorem required_unexported_counterexample :
    Validate ⟨"main.Person", [⟨"age", some "required", Value.int 0, false, none⟩]⟩ =
      Outcome.panic reflectPanic ∧
    Validate ⟨"main.Person", [⟨"age", some "required", Value.int 0, false, none⟩]⟩ ≠
      Outcome.error "age is required" := by
  decide

/-- C2, amended: on an integer `checkRequired` fails, with the text "is required",
exactly when the integer is 0; and when the loops of `Validate` get to the token
`required` of an exported field named `F` that holds the integer 0, the call returns
the error "F is required". -/
theorem checkRequired_int (v : Int) :
    (checkRequired (Value.int v) ≠ none ↔ v = 0) ∧
    (checkRequired (Value.int v) = some "is required" ↔ v = 0) ∧
    (∀ (data : Record) (f : Field), f.exported = true → f.value = Value.int 0 →
      Reaches data f "required" →
      Validate data = Outcome.error (f.name ++ " is required")) := by
  refine ⟨?_, ?_, ?_⟩
  · by_cases h : v = 0 <;> simp [checkRequired, h]
  · by_cases h : v = 0 <;> simp [checkRequired, h]
  · intro data f he hv hr
    apply Validate_of_reaches data f _ _ hr
    rw [applyFlag_required _ f he, hv]
    simp only [checkRequired, if_true, Option.map_some', String.append_assoc]
    rfl

/-- C2 amended, on the record `{Age: 0}`. -/
theorem checkRequired_int_witness :
    Validate sampleAge = Outcome.error "Age is required" :=
  (checkRequired_int 0).2.2 sampleAge ⟨"Age", some "required", Value.int 0, true, none⟩ rfl rfl
    (reaches_single _ _ "required" _ rfl (by decide))

/-- C3: on a string `checkRequired` fails exactly when `strings.TrimSpace` leaves
nothing, which is exactly when every character of the string is white space (the empty
string included); a string with a character that is not white space passes. -/
theorem checkRequired_string (s : String) :
    (checkRequired (Value.str s) ≠ none ↔ strings.TrimSpace s = "") ∧
    (checkRequired (Value.str s) = some "is required" ↔ strings.TrimSpace s = "") ∧
    (strings.TrimSpace s = "" ↔ ∀ c ∈ s.data, strings.isSpace c = true) ∧
    (checkRequired (Value.str s) = none ↔ ∃ c ∈ s.data, strings.isSpace c = false) := by
  have hsize : (strings.TrimSpace s).utf8ByteSize = 0 ↔ strings.TrimSpace s = "" := by
    rw [utf8ByteSize_eq_zero]
    constructor
    · intro h
      exact String.ext h
    · intro h
      rw [h]
  refine ⟨?_, ?_, strings.TrimSpace_eq_empty s, ?_⟩
  · rw [← hsize]
    by_cases h : (strings.TrimSpace s).utf8ByteSize = 0 <;> simp [checkRequired, h]
  · rw [← hsize]
    by_cases h : (strings.TrimSpace s).utf8ByteSize = 0 <;> simp [checkRequired, h]
  · have hiff : checkRequired (Value.str s) = none ↔ ¬ strings.TrimSpace s = "" := by
      rw [← hsize]
      by_cases h : (strings.TrimSpace s).utf8ByteSize = 0 <;> simp [checkRequired, h]
    rw [hiff, strings.TrimSpace_eq_empty]
    simp

/-- C4: `checkPassword` succeeds exactly when the string has a digit, a lowercase
letter, an uppercase letter and one of the listed symbols; otherwise it fails with
the message of the first missing category, in the order digit, lowercase, uppercase,
symbol. -/
theorem checkPassword_spec (s : String) :
    (checkPassword s = none ↔
      (∃ c ∈ s.data, IsDigit c) ∧ (∃ c ∈ s.data, IsLower c) ∧ (∃ c ∈ s.data, IsUpper c) ∧
        (∃ c ∈ s.data, c ∈ passwordSymbols)) ∧
    ((¬ ∃ c ∈ s.data, IsDigit c) →
      checkPassword s = some "must contain at least one number") ∧
    ((∃ c ∈ s.data, IsDigit c) → (¬ ∃ c ∈ s.data, IsLower c) →
      checkPassword s = some "must contain at least one lowercase letter") ∧
    ((∃ c ∈ s.data, IsDigit c) → (∃ c ∈ s.data, IsLower c) → (¬ ∃ c ∈ s.data, IsUpper c) →
      checkPassword s = some "must contain at least one uppercase letter") ∧
    ((∃ c ∈ s.data, IsDigit c) → (∃ c ∈ s.data, IsLower c) → (∃ c ∈ s.data, IsUpper c) →
      (¬ ∃ c ∈ s.data, c ∈ passwordSymbols) →
      checkPassword s =
        some "must contain at least one symbol\n(!, @, #, ~, $, %, ^, &, *, (, ), +, |, _, )") := by
  have hnum : numRegex.MatchString s = true ↔ ∃ c ∈ s.data, IsDigit c := by
    rw [numRegex, matchString_oneOf]
    simp only [regexp.mem_digitClass]
  have hlow : lowercaseRegex.MatchString s = true ↔ ∃ c ∈ s.data, IsLower c := by
    rw [lowercaseRegex, matchString_oneOf]
    simp only [regexp.mem_lowerClass]
  have hupp : uppercaseRegex.MatchString s = true ↔ ∃ c ∈ s.data, IsUpper c := by
    rw [uppercaseRegex, matchString_oneOf]
    simp only [regexp.mem_upperClass]
  have hsym : symbolRegex.MatchString s = true ↔ ∃ c ∈ s.data, c ∈ passwordSymbols := by
    rw [symbolRegex, matchString_oneOf]
    simp only [mem_symbolClass]
  rw [← hnum, ← hlow, ← hupp, ← hsym]
  unfold checkPassword
  cases numRegex.MatchString s <;> cases lowercaseRegex.MatchString s <;>
    cases uppercaseRegex.MatchString s <;> cases symbolRegex.MatchString s <;> simp

/-- The two sample passwords of C4: "abcdefgh" has no digit, "Abcdef1!" has all four. -/
theorem checkPassword_spec_witness :
    checkPassword "abcdefgh" = some "must contain at least one number" ∧
    checkPassword "Abcdef1!" = none :=
  ⟨(checkPassword_spec "abcdefgh").2.1 (by decide),
   (checkPassword_spec "Abcdef1!").1.2 (by decide)⟩

/-- C5: `checkEmail` succeeds exactly when the whole string matches the pattern of the
specification, that is, exactly when it has the shape local part, `@`, dotted labels,
last segment of 2 to 24 characters; otherwise it fails with "e-mail is invalid".  The
bracket expression `[\w-\.]` of the code and `[\w.-]` of the specification hold the
same characters.  "not-an-email" fails. -/
theorem checkEmail_spec (s : String) :
    (checkEmail s = none ↔ specEmailRegex.MatchString s = true) ∧
    (specEmailRegex.MatchString s = true ↔ EmailShape s.data) ∧
    (specEmailRegex.MatchString s ≠ true → checkEmail s = some "e-mail is invalid") ∧
    (∀ c : Char, emailLocalClass.mem c = specEmailLocalClass.mem c) ∧
    checkEmail "not-an-email" = some "e-mail is invalid" := by
  have hshape : ∀ cs : List Char, EmailShape cs ↔
      ∃ (loc : List Char) (labels : List (List Char)) (tld : List Char),
        cs = loc ++ '@' :: ((labels.map fun l => l ++ ['.']).flatten ++ tld) ∧
        loc ≠ [] ∧ (∀ c ∈ loc, emailLocalClass.mem c = true) ∧
        labels ≠ [] ∧ (∀ l ∈ labels, l ≠ [] ∧ ∀ c ∈ l, emailLabelClass.mem c = true) ∧
        2 ≤ tld.length ∧ tld.length ≤ 24 ∧ ∀ c ∈ tld, emailLabelClass.mem c = true := by
    intro cs
    simp only [EmailShape, mem_emailLocalClass, mem_emailLabelClass]
  have hcls : ∀ c : Char, emailLocalClass.mem c = specEmailLocalClass.mem c := by
    intro c
    rw [Bool.eq_iff_iff, mem_emailLocalClass, specEmailLocalClass_mem]
  have hcode : ∀ u : String, emailRegex.MatchString u = true ↔ EmailShape u.data := by
    intro u
    have h1 : emailRegex.MatchString u = emailRegex.body.fullMatch u.data := rfl
    rw [h1, regexp.Regex.fullMatch_iff, hshape]
    exact emailBody_matches emailLocalClass emailLabelClass u.data
  have hspec : ∀ u : String, specEmailRegex.MatchString u = true ↔ EmailShape u.data := by
    intro u
    have h1 : specEmailRegex.MatchString u = specEmailRegex.body.fullMatch u.data := rfl
    rw [h1, regexp.Regex.fullMatch_iff, hshape]
    simp only [hcls]
    exact emailBody_matches specEmailLocalClass emailLabelClass u.data
  have hres : ∀ u : String, emailRegex.MatchString u ≠ true →
      checkEmail u = some "e-mail is invalid" := by
    intro u hu
    simp [checkEmail, hu]
  refine ⟨?_, hspec s, ?_, hcls, ?_⟩
  · rw [hspec, ← hcode]
    unfold checkEmail
    cases emailRegex.MatchString s <;> simp
  · intro h
    apply hres
    intro hc
    exact h ((hspec s).2 ((hcode s).1 hc))
  · exact hres _ (by decide)

/-- C5 on two strings: "not-an-email" has no `@`; "ann.lee@mail.example.org" has the shape. -/
theorem checkEmail_spec_witness :
    checkEmail "not-an-email" = some "e-mail is invalid" ∧
    checkEmail "ann.lee@mail.example.org" = none :=
  ⟨(checkEmail_spec "not-an-email").2.2.1 (by decide),
   (checkEmail_spec "ann.lee@mail.example.org").1.2 (by decide)⟩

/-- C6: `checkUsername` succeeds exactly on the non-empty strings made of ASCII
letters, ASCII digits, `.`, `_` and `-`; every other string, among them the empty
string and any string with a newline or a character outside ASCII, fails with
"username is invalid". -/
theorem checkUsername_spec (s : String) :
    (checkUsername s = none ↔
      s.data ≠ [] ∧
        ∀ c ∈ s.data, IsLower c ∨ IsUpper c ∨ IsDigit c ∨ c = '.' ∨ c = '_' ∨ c = '-') ∧
    (¬ (s.data ≠ [] ∧
        ∀ c ∈ s.data, IsLower c ∨ IsUpper c ∨ IsDigit c ∨ c = '.' ∨ c = '_' ∨ c = '-') →
      checkUsername s = some "username is invalid") ∧
    checkUsername "" = some "username is invalid" ∧
    ((∃ c ∈ s.data, c = '\n' ∨ 128 ≤ c.toNat) →
      checkUsername s = some "username is invalid") := by
  have hm : ∀ u : String, usernameRegex.MatchString u = true ↔
      u.data ≠ [] ∧
        ∀ c ∈ u.data, IsLower c ∨ IsUpper c ∨ IsDigit c ∨ c = '.' ∨ c = '_' ∨ c = '-' := by
    intro u
    have h1 : usernameRegex.MatchString u =
        (regexp.Regex.plus (regexp.Regex.cls usernameClass)).fullMatch u.data := rfl
    rw [h1, regexp.Regex.fullMatch_iff, regexp.Regex.matches_plus_cls_iff]
    simp only [mem_usernameClass]
  have hfail : ∀ u : String, usernameRegex.MatchString u ≠ true →
      checkUsername u = some "username is invalid" := by
    intro u hu
    simp [checkUsername, hu]
  refine ⟨?_, ?_, ?_, ?_⟩
  · rw [← hm]
    unfold checkUsername
    cases usernameRegex.MatchString s <;> simp
  · intro h
    exact hfail s (fun hs => h ((hm s).1 hs))
  · exact hfail "" (fun hs => ((hm "").1 hs).1 rfl)
  · rintro ⟨c, hc, hbad⟩
    apply hfail s
    intro hs
    have hcl := ((hm s).1 hs).2 c hc
    rcases hbad with rfl | hbig
    · revert hcl
      decide
    · have e1 : ∀ d : Char, c ≤ d → c.toNat ≤ d.toNat := fun _ h => h
      rcases hcl with h | h | h | h | h | h
      · have := e1 _ h.2
        have : 'z'.toNat = 122 := rfl
        omega
      · have := e1 _ h.2
        have : 'Z'.toNat = 90 := rfl
        omega
      · have := e1 _ h.2
        have : '9'.toNat = 57 := rfl
        omega
      · rw [h] at hbig
        exact absurd hbig (by decide)
      · rw [h] at hbig
        exact absurd hbig (by decide)
      · rw [h] at hbig
        exact absurd hbig (by decide)

/-- C6 on three strings: a well-formed name, one with a space, one with a newline. -/
theorem checkUsername_spec_witness :
    checkUsername "ann_lee-01.x" = none ∧
    checkUsername "ann lee" = some "username is invalid" ∧
    checkUsername "ann\n" = some "username is invalid" :=
  ⟨(checkUsername_spec "ann_lee-01.x").1.2 (by decide),
   (checkUsername_spec "ann lee").2.1 (by decide),
   (checkUsername_spec "ann\n").2.2.2 ⟨'\n', by decide, Or.inl rfl⟩⟩

/-- C7: for an integer value and an argument that parses to the bound `b`,
`checkMin` fails exactly when the value is below `b` and `checkMax` exactly when it
is above `b`; a value equal to the bound passes both. -/
theorem checkMin_checkMax_int (v b : Int) (arg : String) (h : parseInt arg = Except.ok b) :
    (checkMin (Value.int v) arg ≠ none ↔ v < b) ∧
    (checkMax (Value.int v) arg ≠ none ↔ v > b) ∧
    (v = b → checkMin (Value.int v) arg = none ∧ checkMax (Value.int v) arg = none) := by
  refine ⟨?_, ?_, ?_⟩
  · by_cases hlt : v < b <;> simp [checkMin, h, hlt]
  · by_cases hgt : v > b <;> simp [checkMax, h, hgt]
  · rintro rfl
    simp [checkMin, checkMax, h]

/-- C7 at the bound: the value 10 against the argument "10". -/
theorem checkMin_checkMax_int_witness :
    parseInt "10" = Except.ok 10 ∧
    ((checkMin (Value.int 10) "10" ≠ none ↔ (10 : Int) < 10) ∧
      (checkMax (Value.int 10) "10" ≠ none ↔ (10 : Int) > 10) ∧
      ((10 : Int) = 10 →
        checkMin (Value.int 10) "10" = none ∧ checkMax (Value.int 10) "10" = none)) :=
  ⟨rfl, checkMin_checkMax_int 10 10 "10" rfl⟩

/-- C8 as stated fails: "é" is one code point and two bytes, and `min=2` accepts it. -/
theorem checkMin_codepoints_counterexample :
    ¬ (checkMin (Value.str "é") "2" ≠ none ↔ (("é".length : Nat) : Int) < 2) := by
  decide

/-- C8, amended: for a string value and an argument that parses to the bound `b`,
`checkMin` fails exactly when the number of bytes of the string is below `b` and
`checkMax` exactly when it is above `b`; the length compared is the count of bytes,
which is the count of characters when every character is ASCII. -/
theorem checkMin_checkMax_string (s : String) (b : Int) (arg : String)
    (h : parseInt arg = Except.ok b) :
    (checkMin (Value.str s) arg ≠ none ↔ (s.utf8ByteSize : Int) < b) ∧
    (checkMax (Value.str s) arg ≠ none ↔ (s.utf8ByteSize : Int) > b) ∧
    ((∀ c ∈ s.data, c.toNat < 128) → s.utf8ByteSize = s.length) := by
  refine ⟨?_, ?_, utf8ByteSize_ascii s⟩
  · by_cases hlt : (s.utf8ByteSize : Int) < b <;> simp [checkMin, h, hlt]
  · by_cases hgt : (s.utf8ByteSize : Int) > b <;> simp [checkMax, h, hgt]

/-- C8 amended, on the two-byte string "é" against the argument "2". -/
theorem checkMin_checkMax_string_witness :
    parseInt "2" = Except.ok 2 ∧
    ((checkMin (Value.str "é") "2" ≠ none ↔ (("é".utf8ByteSize : Nat) : Int) < 2) ∧
      (checkMax (Value.str "é") "2" ≠ none ↔ (("é".utf8ByteSize : Nat) : Int) > 2) ∧
      ((∀ c ∈ "é".data, c.toNat < 128) → "é".utf8ByteSize = "é".length)) :=
  ⟨rfl, checkMin_checkMax_string "é" 2 "2" rfl⟩

/-- C9 as stated fails for a field that is not exported: on `size bool` annotated
`min=abc` the rule is reached and `Validate` panics before the argument is parsed. -/
theorem notInteger_unexported_counterexample :
    ¬ IsDecimalInteger "abc" ∧
    Validate ⟨"main.Box", [⟨"size", some "min=abc", Value.other "<bool Value>", false, none⟩]⟩ =
      Outcome.panic reflectPanic :=
  ⟨abc_not_decimal, by decide⟩

/-- C9, amended: when the argument is not a decimal integer, `checkMin` and `checkMax`
return the error "arg is not integer" whatever the value; and when the loops of
`Validate` get to a token `min=arg` or `max=arg` of an exported field named `F`, the
call returns the error "F arg is not integer": it neither aborts nor passes. -/
theorem notInteger_argument (v : Value) (arg : String) (h : ¬ IsDecimalInteger arg) :
    checkMin v arg = some (arg ++ " is not integer") ∧
    checkMax v arg = some (arg ++ " is not integer") ∧
    (∀ (data : Record) (f : Field), f.exported = true → f.value = v → '=' ∉ arg.data →
      Reaches data f ("min=" ++ arg) →
      Validate data = Outcome.error (f.name ++ " " ++ arg ++ " is not integer")) ∧
    (∀ (data : Record) (f : Field), f.exported = true → f.value = v → '=' ∉ arg.data →
      Reaches data f ("max=" ++ arg) →
      Validate data = Outcome.error (f.name ++ " " ++ arg ++ " is not integer")) := by
  have hparse : parseInt arg = Except.error (arg ++ " is not integer") := by
    simp only [parseInt, Atoi_of_not_decimal arg h]
  have hmin : ∀ w : Value, checkMin w arg = some (arg ++ " is not integer") := by
    intro w
    simp only [checkMin, hparse]
  have hmax : ∀ w : Value, checkMax w arg = some (arg ++ " is not integer") := by
    intro w
    simp only [checkMax, hparse]
  refine ⟨hmin v, hmax v, ?_, ?_⟩
  · intro data f he _ heq hr
    apply Validate_of_reaches data f _ _ hr
    simp only [applyFlag_min _ f arg heq he, hmin, Option.map_some', String.append_assoc]
  · intro data f he _ heq hr
    apply Validate_of_reaches data f _ _ hr
    simp only [applyFlag_max _ f arg heq he, hmax, Option.map_some', String.append_assoc]

/-- C9 amended, on the record with the one field `Size`, a boolean, annotated `min=abc`. -/
theorem notInteger_argument_witness :
    ¬ IsDecimalInteger "abc" ∧
    checkMin (Value.other "<bool Value>") "abc" = some "abc is not integer" ∧
    Validate ⟨"main.Box", [⟨"Size", some "min=abc", Value.other "<bool Value>", true, none⟩]⟩ =
      Outcome.error "Size abc is not integer" :=
  ⟨abc_not_decimal,
   (notInteger_argument (Value.other "<bool Value>") "abc" abc_not_decimal).1,
   (notInteger_argument (Value.other "<bool Value>") "abc" abc_not_decimal).2.2.1
     ⟨"main.Box", [⟨"Size", some "min=abc", Value.other "<bool Value>", true, none⟩]⟩
     ⟨"Size", some "min=abc", Value.other "<bool Value>", true, none⟩ rfl rfl (by decide)
     (reaches_single _ _ "min=abc" _ rfl (by decide))⟩

/-- C10 as stated fails for a field that is not exported: on `count int` annotated
`min=5` and holding 2 the check fails with its message, yet `Validate` panics and
returns no text. -/
theorem error_text_unexported_counterexample :
    checkMin (Value.int 2) "5" = some "value (2) is lower than minimum value (5)" ∧
    Validate ⟨"main.Item", [⟨"count", some "min=5", Value.int 2, false, none⟩]⟩ =
      Outcome.panic reflectPanic ∧
    Validate ⟨"main.Item", [⟨"count", some "min=5", Value.int 2, false, none⟩]⟩ ≠
      Outcome.error "count value (2) is lower than minimum value (5)" := by
  decide

/-- C10, amended: when the loops of `Validate` get to a failing `required`, `min` or
`max` rule of an exported field named `F`, or to a failing `password` rule of any
field named `F`, the returned text is `F`, one space, and the message of the check;
for a failing `email` or `username` rule it is the message of the check alone.  The
last three checks run on the text `reflect` gives for the field. -/
theorem error_text_composition (data : Record) (f : Field) (msg : String) :
    (f.exported = true → Reaches data f "required" → checkRequired f.value = some msg →
      Validate data = Outcome.error (f.name ++ " " ++ msg)) ∧
    (Reaches data f "password" → checkPassword f.String = some msg →
      Validate data = Outcome.error (f.name ++ " " ++ msg)) ∧
    (∀ arg : String, f.exported = true → '=' ∉ arg.data → Reaches data f ("min=" ++ arg) →
      checkMin f.value arg = some msg →
      Validate data = Outcome.error (f.name ++ " " ++ msg)) ∧
    (∀ arg : String, f.exported = true → '=' ∉ arg.data → Reaches data f ("max=" ++ arg) →
      checkMax f.value arg = some msg →
      Validate data = Outcome.error (f.name ++ " " ++ msg)) ∧
    (Reaches data f "email" → checkEmail f.String = some msg →
      Validate data = Outcome.error msg) ∧
    (Reaches data f "username" → checkUsername f.String = some msg →
      Validate data = Outcome.error msg) ∧
    (f.iface = none → f.String = f.value.String) := by
  refine ⟨?_, ?_, ?_, ?_, ?_, ?_, String_of_concrete f⟩
  · intro he hr hm
    apply Validate_of_reaches data f _ _ hr
    rw [applyFlag_required _ f he, hm, Option.map_some']
  · intro hr hm
    apply Validate_of_reaches data f _ _ hr
    rw [applyFlag_password, hm, Option.map_some']
  · intro arg he heq hr hm
    apply Validate_of_reaches data f _ _ hr
    rw [applyFlag_min _ f arg heq he, hm, Option.map_some']
  · intro arg he heq hr hm
    apply Validate_of_reaches data f _ _ hr
    rw [applyFlag_max _ f arg heq he, hm, Option.map_some']
  · intro hr hm
    apply Validate_of_reaches data f _ _ hr
    rw [applyFlag_email, hm, Option.map_some']
  · intro hr hm
    apply Validate_of_reaches data f _ _ hr
    rw [applyFlag_username, hm, Option.map_some']

/-- C10 amended, on `Pwd: "abcdefgh"` annotated `password`, on `Email: "not-an-email"`
annotated `email`, and on `Count: 2` annotated `min=5`. -/
theorem error_text_composition_witness :
    Validate ⟨"main.User", [⟨"Pwd", some "password", Value.str "abcdefgh", true, none⟩]⟩ =
      Outcome.error "Pwd must contain at least one number" ∧
    Validate ⟨"main.User", [⟨"Email", some "email", Value.str "not-an-email", true, none⟩]⟩ =
      Outcome.error "e-mail is invalid" ∧
    Validate ⟨"main.Item", [⟨"Count", some "min=5", Value.int 2, true, none⟩]⟩ =
      Outcome.error "Count value (2) is lower than minimum value (5)" :=
  ⟨(error_text_composition
      ⟨"main.User", [⟨"Pwd", some "password", Value.str "abcdefgh", true, none⟩]⟩
      ⟨"Pwd", some "password", Value.str "abcdefgh", true, none⟩
      "must contain at least one number").2.1
      (reaches_single _ _ "password" _ rfl (by decide)) (by decide),
   (error_text_composition
      ⟨"main.User", [⟨"Email", some "email", Value.str "not-an-email", true, none⟩]⟩
      ⟨"Email", some "email", Value.str "not-an-email", true, none⟩
      "e-mail is invalid").2.2.2.2.1
      (reaches_single _ _ "email" _ rfl (by decide)) (by decide),
   (error_text_composition
      ⟨"main.Item", [⟨"Count", some "min=5", Value.int 2, true, none⟩]⟩
      ⟨"Count", some "min=5", Value.int 2, true, none⟩
      "value (2) is lower than minimum value (5)").2.2.1 "5" rfl (by decide)
      (reaches_single _ _ "min=5" _ rfl (by decide)) (by decide)⟩

/-- C11 as stated fails when the length is counted in characters: "éé" has 2
characters, `min=3` parses to 3, yet `Validate` returns `nil` on `Name: "éé"`, the
string being 4 bytes long.  It also fails on a field that is not exported: on
`name string` holding "ab" the call panics and returns no text. -/
theorem min_length_codepoints_counterexample :
    (("éé".length : Nat) : Int) < 3 ∧ parseInt "3" = Except.ok 3 ∧
    Validate ⟨"main.Item", [⟨"Name", some "min=3", Value.str "éé", true, none⟩]⟩ =
      Outcome.ok ∧
    Validate ⟨"main.Item", [⟨"Name", some "min=3", Value.str "éé", true, none⟩]⟩ ≠
      Outcome.error "Name length (2) is lower than minimum length (3)" ∧
    Validate ⟨"main.Item", [⟨"name", some "min=3", Value.str "ab", false, none⟩]⟩ =
      Outcome.panic reflectPanic := by
  refine ⟨by decide, rfl, by decide, by decide, by decide⟩

/-- C11, amended: when the loops of `Validate` get to the token `min=arg` of an exported
field named `F` that holds the string `s`, `arg` parses to `m` and the length `l` of
`s` in bytes is below `m`, the call returns "F length (l) is lower than minimum length
(m)"; `l` and `m` are printed as decimal numerals: the digits of `l` have the value
`l`, and the text of `m` reads back as `m`. -/
theorem min_length_message (data : Record) (f : Field) (s arg : String) (m : Int)
    (he : f.exported = true) (hv : f.value = Value.str s) (hp : parseInt arg = Except.ok m)
    (hlt : (s.utf8ByteSize : Int) < m) (hr : Reaches data f ("min=" ++ arg)) :
    Validate data =
      Outcome.error (f.name ++ " length (" ++ formatInt s.utf8ByteSize ++
        ") is lower than minimum length (" ++ formatInt m ++ ")") ∧
    strconv.digitsValue (formatInt s.utf8ByteSize).data = s.utf8ByteSize ∧
    (∀ c ∈ (formatInt s.utf8ByteSize).data, IsDigit c) ∧
    strconv.Atoi (formatInt m) = some m := by
  have heq : '=' ∉ arg.data := parsed_clean arg m hp _ (by decide) (by decide) (by decide)
  have hdata : (formatInt s.utf8ByteSize).data = Nat.toDigits 10 s.utf8ByteSize := rfl
  have hrange := (Atoi_some arg m (parseInt_ok arg m hp)).2
  refine ⟨?_, ?_, ?_, Atoi_formatInt m hrange.1 hrange.2⟩
  · apply Validate_of_reaches data f _ _ hr
    rw [applyFlag_min _ f arg heq he, hv]
    simp only [checkMin, hp, hlt, if_true, Option.map_some', String.append_assoc, text_length]
  · rw [hdata]
    exact digitsValue_toDigits _
  · intro c hc
    rw [hdata] at hc
    exact (isDigit_iff c).1 (toDigits_isDigit _ c hc)

/-- C11 amended, on `Name: "ab"` annotated `min=3`. -/
theorem min_length_message_witness :
    Validate sampleName = Outcome.error "Name length (2) is lower than minimum length (3)" :=
  (min_length_message sampleName ⟨"Name", some "min=3", Value.str "ab", true, none⟩ "ab" "3" 3
    rfl rfl rfl (by decide) (reaches_single _ _ "min=3" _ rfl (by decide))).1

/-- C12: a reached token without `=` whose name is none of `required`, `password`,
`email`, `username` makes `Validate` abort; a reached token `name=value` whose name is
neither `min` nor `max` makes it return the error "name invalid key".  So `required=1`
is a returned error and a bare `min` is an abort. -/
theorem unknown_name_severity (data : Record) (f : Field) :
    (∀ key : String, '=' ∉ key.data → key ≠ "required" → key ≠ "password" → key ≠ "email" →
      key ≠ "username" → Reaches data f key →
      Validate data = Outcome.fatal ("'" ++ key ++ "' invalid key at " ++ data.typeName)) ∧
    (∀ key value : String, '=' ∉ key.data → '=' ∉ value.data → key ≠ "min" → key ≠ "max" →
      Reaches data f (key ++ "=" ++ value) →
      Validate data = Outcome.error (key ++ " invalid key")) ∧
    (Reaches data f "required=1" → Validate data = Outcome.error "required invalid key") ∧
    (Reaches data f "min" →
      Validate data = Outcome.fatal ("'min' invalid key at " ++ data.typeName)) := by
  have hflag : ∀ key : String, '=' ∉ key.data → key ≠ "required" → key ≠ "password" →
      key ≠ "email" → key ≠ "username" → Reaches data f key →
      Validate data = Outcome.fatal ("'" ++ key ++ "' invalid key at " ++ data.typeName) := by
    intro key h0 h1 h2 h3 h4 hr
    apply Validate_of_reaches data f key _ hr
    rw [applyFlag_no_eq _ f key h0]
    exact dispatchFlag_unknown _ f key h1 h2 h3 h4
  have hparam : ∀ key value : String, '=' ∉ key.data → '=' ∉ value.data → key ≠ "min" →
      key ≠ "max" → Reaches data f (key ++ "=" ++ value) →
      Validate data = Outcome.error (key ++ " invalid key") := by
    intro key value hk hv h1 h2 hr
    apply Validate_of_reaches data f _ _ hr
    rw [applyFlag_key_value _ f key value hk hv]
    exact dispatchParam_unknown f key value h1 h2
  refine ⟨hflag, hparam, ?_, ?_⟩
  · intro hr
    exact hparam "required" "1" (by decide) (by decide) (by decide) (by decide) hr
  · intro hr
    exact hflag "min" (by decide) (by decide) (by decide) (by decide) (by decide) hr

/-- C12 on `Age` annotated `required=1` and on `Age` annotated `min`. -/
theorem unknown_name_severity_witness :
    Validate ⟨"main.Person", [⟨"Age", some "required=1", Value.int 0, true, none⟩]⟩ =
      Outcome.error "required invalid key" ∧
    Validate ⟨"main.Person", [⟨"Age", some "min", Value.int 0, true, none⟩]⟩ =
      Outcome.fatal "'min' invalid key at main.Person" :=
  ⟨(unknown_name_severity ⟨"main.Person", [⟨"Age", some "required=1", Value.int 0, true, none⟩]⟩
      ⟨"Age", some "required=1", Value.int 0, true, none⟩).2.2.1
      (reaches_single _ _ "required=1" _ rfl (by decide)),
   (unknown_name_severity ⟨"main.Person", [⟨"Age", some "min", Value.int 0, true, none⟩]⟩
      ⟨"Age", some "min", Value.int 0, true, none⟩).2.2.2
      (reaches_single _ _ "min" _ rfl (by decide))⟩

/-- C13: the dispatch splits a token on `=` into one more piece than it has `=`.  A
token without `=` goes whole to the switch on flag names; a token with one `=` goes
to the switch on parameterized names, the text before `=` as name and the text after
as argument; a reached token with two or more `=` makes `Validate` abort. -/
theorem token_classification (t : String) (f : Field) (tok : String) :
    (strings.Split tok '=').length = tok.data.count '=' + 1 ∧
    (tok.data.count '=' = 0 →
      strings.Split tok '=' = [tok] ∧ applyFlag t f tok = dispatchFlag t f tok) ∧
    (tok.data.count '=' = 1 →
      ∃ key value : String, tok = key ++ "=" ++ value ∧ '=' ∉ key.data ∧ '=' ∉ value.data ∧
        strings.Split tok '=' = [key, value] ∧ applyFlag t f tok = dispatchParam f key value) ∧
    (2 ≤ tok.data.count '=' →
      applyFlag t f tok = some (Outcome.fatal ("'" ++ tok ++ "' invalid format at " ++ t)) ∧
      ∀ data : Record, data.typeName = t → Reaches data f tok →
        Validate data = Outcome.fatal ("'" ++ tok ++ "' invalid format at " ++ t)) := by
  refine ⟨?_, ?_, ?_, ?_⟩
  · simp only [strings.Split, List.length_map, strings.splitChars_length]
  · intro h0
    have hno : '=' ∉ tok.data := List.count_eq_zero.1 h0
    exact ⟨Split_of_no_eq tok hno, applyFlag_no_eq t f tok hno⟩
  · intro h1
    obtain ⟨a, b, hab, ha, hb⟩ := count_one_split '=' tok.data h1
    have htok : tok = String.mk a ++ "=" ++ String.mk b := by
      apply String.ext
      simp only [String.data_append, hab]
      show a ++ '=' :: b = a ++ ['='] ++ b
      simp
    refine ⟨String.mk a, String.mk b, htok, ha, hb, ?_, ?_⟩
    · rw [htok]
      exact strings.Split_key_value _ _ ha hb
    · rw [htok]
      exact applyFlag_key_value t f _ _ ha hb
  · intro h2
    refine ⟨applyFlag_many_eq t f tok h2, ?_⟩
    intro data ht hr
    apply Validate_of_reaches data f tok _ hr
    rw [ht]
    exact applyFlag_many_eq t f tok h2

/-- C13 on the tokens `min=1=2` and `min==3`: both abort. -/
theorem token_classification_witness :
    Validate ⟨"main.Box", [⟨"Size", some "min=1=2", Value.int 5, true, none⟩]⟩ =
      Outcome.fatal "'min=1=2' invalid format at main.Box" ∧
    Validate ⟨"main.Box", [⟨"Size", some "min==3", Value.int 5, true, none⟩]⟩ =
      Outcome.fatal "'min==3' invalid format at main.Box" :=
  ⟨((token_classification "main.Box" ⟨"Size", some "min=1=2", Value.int 5, true, none⟩ "min=1=2").2.2.2
      (by decide)).2 ⟨"main.Box", [⟨"Size", some "min=1=2", Value.int 5, true, none⟩]⟩ rfl
      (reaches_single _ _ "min=1=2" _ rfl (by decide)),
   ((token_classification "main.Box" ⟨"Size", some "min==3", Value.int 5, true, none⟩ "min==3").2.2.2
      (by decide)).2 ⟨"main.Box", [⟨"Size", some "min==3", Value.int 5, true, none⟩]⟩ rfl
      (reaches_single _ _ "min==3" _ rfl (by decide))⟩

/-- C14 as stated fails: with `required,bogus` on `Age` the unknown flag name is in the
annotation, yet the call returns an error when `Age` is 0 and aborts when `Age` is 1. -/
theorem abort_static_counterexample :
    SameShape (sampleBogus 0) (sampleBogus 1) ∧
    (∃ tok ∈ flagsArray "required,bogus", FatalToken tok) ∧
    Validate (sampleBogus 0) = Outcome.error "Age is required" ∧
    Validate (sampleBogus 1) = Outcome.fatal "'bogus' invalid key at main.Person" :=
  ⟨⟨rfl, rfl⟩,
   ⟨"bogus", by decide,
    Or.inr ⟨by decide, by decide, by decide, by decide, by decide⟩⟩,
   by decide, by decide⟩

/-- C14, amended: the dispatch on a malformed token or on an unknown flag name aborts
with a text that does not depend on the field, so `Validate` aborts whenever its loops
get to such a token; when it is the first token of the first annotated field,
`Validate` aborts for every record of the same shape, whatever the values. -/
theorem fatal_token_aborts (data : Record) (f : Field) (tok : String) (h : FatalToken tok) :
    ∃ msg : String,
      (∀ g : Field, applyFlag data.typeName g tok = some (Outcome.fatal msg)) ∧
      (Reaches data f tok → Validate data = Outcome.fatal msg) ∧
      (∀ (before after : List Field) (flags : String) (todo : List String),
        data.fields = before ++ f :: after → (∀ g ∈ before, g.tag = none) →
        f.tag = some flags → flagsArray flags = tok :: todo →
        ∀ other : Record, SameShape data other → Validate other = Outcome.fatal msg) := by
  obtain ⟨msg, hmsg⟩ := applyFlag_fatalToken data.typeName tok h
  refine ⟨msg, hmsg, fun hr => Validate_of_reaches data f tok _ hr (hmsg f), ?_⟩
  intro before after flags todo hfields hbefore htag htoks other hs
  obtain ⟨before1, after1, f1, hf1, hb1, ht1⟩ :=
    sameShape_first data other before after f hs hfields hbefore
  apply Validate_of_reaches other f1 tok _
    (reaches_first other before1 after1 f1 flags tok todo hf1 hb1 (ht1.trans htag) htoks)
  rw [← hs.1]
  exact hmsg f1

/-- C14 amended, on `Age` annotated `bogus,required`: the first token is unknown, and
the record with `Age` 0 and the record with `Age` 1 both abort. -/
theorem fatal_token_aborts_witness :
    FatalToken "bogus" ∧
    ∃ msg : String,
      Validate ⟨"main.Person", [⟨"Age", some "bogus,required", Value.int 0, true, none⟩]⟩ =
        Outcome.fatal msg ∧
      Validate ⟨"main.Person", [⟨"Age", some "bogus,required", Value.int 1, true, none⟩]⟩ =
        Outcome.fatal msg :=
  ⟨Or.inr ⟨by decide, by decide, by decide, by decide, by decide⟩,
   (fatal_token_aborts ⟨"main.Person", [⟨"Age", some "bogus,required", Value.int 0, true, none⟩]⟩
      ⟨"Age", some "bogus,required", Value.int 0, true, none⟩ "bogus"
      (Or.inr ⟨by decide, by decide, by decide, by decide, by decide⟩)).elim
    fun msg hm =>
      ⟨msg,
        hm.2.2 [] [] "bogus,required" ["required"] rfl (fun _ hg => by cases hg) rfl
          (by decide) ⟨"main.Person", [⟨"Age", some "bogus,required", Value.int 0, true, none⟩]⟩
          ⟨rfl, rfl⟩,
        hm.2.2 [] [] "bogus,required" ["required"] rfl (fun _ hg => by cases hg) rfl
          (by decide) ⟨"main.Person", [⟨"Age", some "bogus,required", Value.int 1, true, none⟩]⟩
          ⟨rfl, rfl⟩⟩⟩

/-- C15 as stated fails: on a boolean, `min=abc` returns the error "abc is not integer". -/
theorem other_value_counterexample :
    checkMin (Value.other "<bool Value>") "abc" = some "abc is not integer" ∧
    checkMax (Value.other "<bool Value>") "abc" = some "abc is not integer" := by
  decide

/-- C15, amended: on a value that is neither an `int` nor a `string`, `checkRequired`
returns no error, and `checkMin` and `checkMax` return no error for every argument
that parses to an integer. -/
theorem other_value_passes (text arg : String) (b : Int) (h : parseInt arg = Except.ok b) :
    checkRequired (Value.other text) = none ∧
    checkMin (Value.other text) arg = none ∧
    checkMax (Value.other text) arg = none := by
  refine ⟨rfl, ?_, ?_⟩
  · simp only [checkMin, h]
  · simp only [checkMax, h]

/-- C15 amended, on a boolean and the argument "3". -/
theorem other_value_passes_witness :
    parseInt "3" = Except.ok 3 ∧
    checkRequired (Value.other "<bool Value>") = none ∧
    checkMin (Value.other "<bool Value>") "3" = none ∧
    checkMax (Value.other "<bool Value>") "3" = none :=
  ⟨rfl, other_value_passes "<bool Value>" "3" 3 rfl⟩

/-- C16: a field without annotation, put at any position of a record, leaves the
outcome of `Validate` as it was, whatever its name and value, also when the printed
name of the record type changes with it (the name shows only in the text of an abort);
a record none of whose fields is annotated validates. -/
theorem unannotated_fields_skipped (t : String) (pre post : List Field) (f : Field)
    (h : f.tag = none) :
    Validate ⟨t, pre ++ f :: post⟩ = Validate ⟨t, pre ++ post⟩ ∧
    (∀ t1 : String,
      (Validate ⟨t1, pre ++ f :: post⟩).kind = (Validate ⟨t, pre ++ post⟩).kind) ∧
    (∀ fields : List Field, (∀ g ∈ fields, g.tag = none) →
      Validate ⟨t, fields⟩ = Outcome.ok) :=
  ⟨validateFields_skip t f post h pre,
   fun t1 => (validateFields_typeName t1 t (pre ++ f :: post)).trans
     (congrArg Outcome.kind (validateFields_skip t f post h pre)),
   fun fields hall => validateFields_unannotated t fields hall⟩

/-- C16 on the sample record: the field `Note` has no annotation and may be left out. -/
theorem unannotated_fields_skipped_witness :
    Validate sampleItem =
      Validate ⟨"main.Item",
        [⟨"Name", some "required, min=3", Value.str "ab", true, none⟩,
         ⟨"Count", some "min=1,max=10", Value.int 5, true, none⟩]⟩ :=
  (unannotated_fields_skipped "main.Item" [⟨"Name", some "required, min=3", Value.str "ab", true, none⟩]
    [⟨"Count", some "min=1,max=10", Value.int 5, true, none⟩] ⟨"Note", none, Value.other "<bool Value>", true, none⟩
    rfl).1

/-- C17: `trimWhiteSpaces` keeps, in their order, exactly the characters that are not a
space, a tab, a vertical tab or a newline; its result holds none of the four and it is
idempotent.  Two annotations with the same stripped text, put on the same field, give
the same outcome of `Validate`, as `min = 3` and `min=3` do. -/
theorem trimWhiteSpaces_spec (s : String) :
    (trimWhiteSpaces s).data = s.data.filter (fun c => decide (c ∉ strippedChars)) ∧
    (∀ c ∈ (trimWhiteSpaces s).data, c ∉ strippedChars) ∧
    trimWhiteSpaces (trimWhiteSpaces s) = trimWhiteSpaces s ∧
    (∀ (t name : String) (v : Value) (e : Bool) (i : Option String) (pre post : List Field)
      (a1 a2 : String),
      trimWhiteSpaces a1 = trimWhiteSpaces a2 →
      Validate ⟨t, pre ++ ⟨name, some a1, v, e, i⟩ :: post⟩ =
        Validate ⟨t, pre ++ ⟨name, some a2, v, e, i⟩ :: post⟩) ∧
    trimWhiteSpaces "min = 3" = trimWhiteSpaces "min=3" := by
  refine ⟨trimWhiteSpaces_data s, trimWhiteSpaces_clean s,
    trimWhiteSpaces_of_clean _ (trimWhiteSpaces_clean s), ?_, by decide⟩
  intro t name v e i pre post a1 a2 h
  exact validateFields_same_tokens t name a1 a2 v e i post
    (by simp only [flagsArray, h]) pre

/-- C17 on `Name: "ab"`: the annotations `min = 3` and `min=3` give the same error. -/
theorem trimWhiteSpaces_spec_witness :
    Validate ⟨"main.Item", [⟨"Name", some "min = 3", Value.str "ab", true, none⟩]⟩ =
      Validate ⟨"main.Item", [⟨"Name", some "min=3", Value.str "ab", true, none⟩]⟩ :=
  (trimWhiteSpaces_spec "").2.2.2.1 "main.Item" "Name" (Value.str "ab") true none [] []
    "min = 3" "min=3" (by decide)

/-- C18 as stated fails for a field that is not exported: on `count int` annotated
`min=1,max=10` and holding 5, within the range, `Validate` panics. -/
theorem range_unexported_counterexample :
    parseInt "1" = Except.ok 1 ∧ parseInt "10" = Except.ok 10 ∧
    ((1 : Int) ≤ 5 ∧ (5 : Int) ≤ 10) ∧
    Validate ⟨"main.Item", [⟨"count", some "min=1,max=10", Value.int 5, false, none⟩]⟩ =
      Outcome.panic reflectPanic :=
  ⟨rfl, rfl, by decide, by decide⟩

/-- C18, amended: on a record with the one exported field `F`, an `int` `v`, annotated
`min=a,max=b` where the two arguments parse to `a` and `b`, `Validate` returns `nil`
exactly when `a ≤ v ≤ b`; below `a` it returns the minimum-value error, and above `b`
(and not below `a`) the maximum-value error.  Every `int` printed in decimal parses to
itself. -/
theorem range_composition (t F : String) (v a b : Int) (sa sb : String) (i : Option String)
    (ha : parseInt sa = Except.ok a) (hb : parseInt sb = Except.ok b) :
    (Validate ⟨t, [⟨F, some ("min=" ++ sa ++ ",max=" ++ sb), Value.int v, true, i⟩]⟩ =
        Outcome.ok ↔ a ≤ v ∧ v ≤ b) ∧
    (v < a →
      Validate ⟨t, [⟨F, some ("min=" ++ sa ++ ",max=" ++ sb), Value.int v, true, i⟩]⟩ =
        Outcome.error (F ++ " value (" ++ formatInt v ++ ") is lower than minimum value (" ++
          formatInt a ++ ")")) ∧
    (a ≤ v → b < v →
      Validate ⟨t, [⟨F, some ("min=" ++ sa ++ ",max=" ++ sb), Value.int v, true, i⟩]⟩ =
        Outcome.error (F ++ " value (" ++ formatInt v ++ ") is higher than maximum value (" ++
          formatInt b ++ ")")) ∧
    (∀ n : Int, -(2 : Int) ^ 63 ≤ n → n < (2 : Int) ^ 63 →
      parseInt (formatInt n) = Except.ok n) := by
  have hval := Validate_min_max t F v a b sa sb i ha hb
  refine ⟨?_, ?_, ?_, parseInt_formatInt⟩
  · rw [hval]
    by_cases h1 : v < a
    · simp only [h1, if_true]
      constructor
      · intro h
        cases h
      · intro h
        omega
    · by_cases h2 : v > b
      · simp only [h1, h2, if_false, if_true]
        constructor
        · intro h
          cases h
        · intro h
          omega
      · simp only [h1, h2, if_false]
        constructor
        · intro _
          omega
        · intro _
          trivial
  · intro h1
    rw [hval, if_pos h1]
    simp only [String.append_assoc, text_value]
  · intro h1 h2
    rw [hval, if_neg (not_lt.2 h1), if_pos h2]
    simp only [String.append_assoc, text_value]

/-- C18 amended, on `Count: 5` annotated `min=1,max=10`. -/
theorem range_composition_witness :
    parseInt "1" = Except.ok 1 ∧ parseInt "10" = Except.ok 10 ∧
    Validate ⟨"main.Item", [⟨"Count", some "min=1,max=10", Value.int 5, true, none⟩]⟩ =
      Outcome.ok :=
  ⟨rfl, rfl,
   (range_composition "main.Item" "Count" 5 1 10 "1" "10" none rfl rfl).1.2 (by decide)⟩

end Validator
